import Mathlib

/-!
Verification development for the docker-security-agent repository.

The definitions below are a shallow embedding of the Python sources:
  src/agent/dependency_updater.py  (manifest updaters and the dispatcher)
  src/agent/trivy_parser.py        (finding normalizer)
  src/agent/repo_runner.py         (pipeline orchestrator)
Strings are modelled as Lean `String`/`List Char`; the repository working
tree is a name-to-content map; external collaborators (git, docker, trivy,
test runner, package-manager CLIs) are oracle parameters, mirroring the
spec's treatment of them as black boxes.  Each definition carries a
reference to the source lines it embeds.
-/

namespace DSA

set_option maxRecDepth 100000
set_option maxHeartbeats 1000000

/-! ## Character classes used by the Python string operations -/

/-- Whitespace characters stripped by Python `str.strip()` / matched by the
regex class `\s` (ASCII part; the sources only meet ASCII manifests). -/
def isPyWs (c : Char) : Bool :=
  c = ' ' || c = '\t' || c = '\n' || c = '\r' || c = '\x0b' || c = '\x0c'

/-- Line-break characters recognised by Python `str.splitlines()` (the
common ones; `\r\n` is handled as a single break by `splitLinesL`). -/
def isLB (c : Char) : Bool :=
  c = '\n' || c = '\r' || c = '\x0b' || c = '\x0c' ||
  c = '\x1c' || c = '\x1d' || c = '\x1e' || c = '\x85' ||
  c.val = 0x2028 || c.val = 0x2029

/-- Version-operator characters of the regex class `[<>=!~]` used at
dependency_updater.py line 51. -/
def opChar (c : Char) : Bool :=
  c = '<' || c = '>' || c = '=' || c = '!' || c = '~'

/-! ## List-of-characters utilities mirroring the Python string methods -/

/-- Match a literal pattern at the head of a character list; on success
return the remaining characters (the Python regex engine anchoring a
`re.escape`d literal with `^`). -/
def matchTail : List Char → List Char → Option (List Char)
  | [], l => some l
  | _ :: _, [] => none
  | a :: as, b :: bs => if a = b then matchTail as bs else none

/-- Left strip, as in Python `str.lstrip()`. -/
def lstripChars (l : List Char) : List Char := l.dropWhile isPyWs

/-- Right strip, as in Python `str.rstrip()`. -/
def rstripChars (l : List Char) : List Char :=
  (l.reverse.dropWhile isPyWs).reverse

/-- Python `str.strip()`. -/
def stripChars (l : List Char) : List Char := rstripChars (lstripChars l)

/-- Python `str.splitlines()` on `\n`, `\r`, `\r\n` and the rarer
break characters: no trailing empty line, `""` gives `[]`. -/
def splitLinesL : List Char → List (List Char)
  | [] => []
  | '\r' :: '\n' :: rest => [] :: splitLinesL rest
  | c :: rest =>
    if isLB c then [] :: splitLinesL rest
    else
      match splitLinesL rest with
      | [] => [[c]]
      | l :: ls => (c :: l) :: ls

/-- Python `"\n".join(lines)`. -/
def interNL : List (List Char) → List Char
  | [] => []
  | [l] => l
  | l :: ls => l ++ '\n' :: interNL ls

/-- Python `"\n".join(lines) + "\n"` — the written file image
(dependency_updater.py lines 68, 198, 279). -/
def joinNL (ls : List (List Char)) : List Char := interNL ls ++ ['\n']

/-- Python truthiness of an optional string: `None` and `""` are falsy
(dependency_updater.py line 23 `if pkg and fixed`). -/
def truthyStr : Option String → Option String
  | none => none
  | some "" => none
  | some s => some s

/-- Python `str.strip()` at `String` level. -/
def pyStrip (s : String) : String := String.mk (stripChars s.toList)

/-- Python `str.split(",")`: every comma is a separator, empty segments
kept. -/
def splitCommaL : List Char → List (List Char)
  | [] => [[]]
  | ',' :: rest => [] :: splitCommaL rest
  | c :: rest =>
    match splitCommaL rest with
    | [] => [[c]]
    | l :: ls => (c :: l) :: ls

/-- Python `fixed.split(",")[-1].strip()` applied when `"," in fixed`
(dependency_updater.py lines 24-25); otherwise the string is unchanged. -/
def commaLastStrip (f : String) : String :=
  if f.toList.contains ',' then
    String.mk (stripChars ((splitCommaL f.toList).getLastD []))
  else f

/-! ## Findings and Update Sets -/

/-- One vulnerability record as consumed from the Trivy report: the four
fields the agent reads (`v.get(...)` returns `None` when absent). -/
structure Finding where
  PkgName : Option String := none
  FixedVersion : Option String := none
  Severity : Option String := none
  VulnerabilityID : Option String := none
deriving DecidableEq, Repr

/-- Python dict assignment `d[k] = v`: overwrite in place when the key is
present (keeping its position), else append. -/
def dictInsert (d : List (String × String)) (k v : String) :
    List (String × String) :=
  if d.any (fun p => p.1 = k) then
    d.map (fun p => if p.1 = k then (k, v) else p)
  else d ++ [(k, v)]

/-- Lookup in the ordered dict. -/
def lookupDict (d : List (String × String)) (k : String) : Option String :=
  (d.find? (fun p => p.1 = k)).map Prod.snd

/-- One iteration of the Update Set loops: skip a Finding whose package
name or fixed version is missing/empty, otherwise store the (transformed)
fixed version under the package name; `g` is the per-updater version
transform. -/
def updStep (g : String → String) (d : List (String × String))
    (v : Finding) : List (String × String) :=
  match truthyStr v.PkgName, truthyStr v.FixedVersion with
  | some pkg, some fixed => dictInsert d pkg (g fixed)
  | _, _ => d

/-- Update Set of `PythonUpdater.update` (dependency_updater.py lines
19-26): last Finding wins, and a comma-separated fixed version is reduced
to its last alternative, stripped. -/
def pyUpdates (vulns : List Finding) : List (String × String) :=
  vulns.foldl (updStep commaLastStrip) []

/-- Update Set shared by `NodeUpdater` (lines 78-83), `PoetryUpdater`
(lines 137-140), `PipenvUpdater` (lines 208-211) and `MavenUpdater`
(lines 289-292): last Finding wins, fixed version taken verbatim
(no comma reduction). -/
def kvUpdates (vulns : List Finding) : List (String × String) :=
  vulns.foldl (updStep (fun f => f)) []

/-! ## Repository working tree -/

/-- The repository working tree: file name (relative to the repository
root) to text content.  The updaters only ever touch their own manifest
at the root. -/
abbrev FS := List (String × String)

/-- Read a file (`Path.exists` + `read_text` collapsed into one lookup;
the model has no concurrent modification between the two). -/
def FS.read (fs : FS) (n : String) : Option String :=
  (List.find? (fun p => p.1 = n) fs).map Prod.snd

/-- Write a file (`Path.write_text`): overwrite in place, create if new. -/
def FS.write (fs : FS) (n c : String) : FS :=
  if (List.any fs (fun p => p.1 = n)) then
    List.map (fun p => if p.1 = n then (n, c) else p) fs
  else fs ++ [(n, c)]

/-! ## PythonUpdater (dependency_updater.py lines 13-70) -/

/-- `line.split("#")[0].strip()` (line 44). -/
def cleanL (l : List Char) : List Char :=
  stripChars (l.takeWhile (fun c => c ≠ '#'))

/-- The preserved trailing comment: `" #" + line.split("#", 1)[1]` when the
line contains `#`, else `""` (lines 53-55). -/
def commentL (l : List Char) : List Char :=
  match l.dropWhile (fun c => c ≠ '#') with
  | [] => []
  | _ :: rest => ' ' :: '#' :: rest

/-- The regex `^{re.escape(pkg)}([<>=!~]+.*)?$` of line 51, fully applied
to the cleaned line: the line token is exactly `pkg`, or `pkg` followed by
at least one operator character and arbitrary text. -/
def reqMatches (pkg : String) (clean : List Char) : Bool :=
  match matchTail pkg.toList clean with
  | none => false
  | some [] => true
  | some (c :: _) => opChar c

/-- Process one requirements line (lines 43-65): blank/comment-only lines
pass through; otherwise the first matching pending update rewrites the
line to `pkg>=fixed` with the trailing comment preserved. Returns the new
line, and the matched package when one was found. -/
def applyLineL (U : List (String × String)) (l : List Char) :
    List Char × Option String :=
  let clean := cleanL l
  if clean = [] then (l, none)
  else
    match U.find? (fun p => reqMatches p.1 clean) with
    | some (pkg, ver) =>
      (pkg.toList ++ '>' :: '=' :: (ver.toList ++ commentL l), some pkg)
    | none => (l, none)

/-- The `for line in lines` loop of lines 43-65: new lines in order, the
`updated_pkgs` list, and the `modified` flag. -/
def pyLoop (U : List (String × String)) :
    List (List Char) → List (List Char) × List String × Bool
  | [] => ([], [], false)
  | l :: ls =>
    let r := applyLineL U l
    let rest := pyLoop U ls
    match r.2 with
    | some pkg => (r.1 :: rest.1, pkg :: rest.2.1, true)
    | none => (r.1 :: rest.1, rest.2.1, rest.2.2)

/-- `PythonUpdater.update` (lines 14-70).  The UTF-8/UTF-16 read fallback
is invisible in this text-level model (contents are already strings). -/
def PythonUpdater.update (fs : FS) (vulns : List Finding) :
    List String × FS :=
  match FS.read fs "requirements.txt" with
  | none => ([], fs)
  | some content =>
    let U := pyUpdates vulns
    if U.isEmpty then ([], fs)
    else
      let r := pyLoop U (splitLinesL content.toList)
      if r.2.2 then
        (r.2.1, FS.write fs "requirements.txt" (String.mk (joinNL r.1)))
      else ([], fs)


/-! ## External tools and Python exceptions -/

/-- Python exceptions that can escape the embedded code. -/
inductive PyErr where
  | nameError
  | typeError
  | fileNotFound
deriving DecidableEq, Repr

/-- Availability and behaviour of the external CLI collaborators
(`shutil.which` plus the spawned processes, which may rewrite manifest
files).  A CLI oracle returning `none` models a `CalledProcessError`,
leaving the tree as it was. -/
structure Tools where
  hasPoetry : Bool := false
  hasPipenv : Bool := false
  hasNpm : Bool := false
  poetryAdd : String → String → FS → Option FS := fun _ _ _ => none
  pipenvInstall : String → String → FS → Option FS := fun _ _ _ => none
  npmLock : FS → Option FS := fun _ => none

/-! ## A small JSON model for NodeUpdater

The `json.loads` / `json.dumps(data, indent=2)` pair used at
dependency_updater.py lines 90 and 110, for the JSON fragment package
manifests use (numbers are kept as their source lexeme). -/

inductive Json where
  | jnull
  | jbool (b : Bool)
  | jnum (lexeme : String)
  | jstr (s : String)
  | jarr (items : List Json)
  | jobj (fields : List (String × Json))

/-- JSON insignificant whitespace. -/
def isJsonWs (c : Char) : Bool :=
  c = ' ' || c = '\t' || c = '\n' || c = '\r'

/-- Hex digit test (`0-9a-fA-F`). -/
def isHexDig (c : Char) : Bool :=
  c.isDigit || (97 ≤ c.toLower.val && c.toLower.val ≤ 102)

/-- Parse a JSON string body after the opening quote, handling the
standard escapes. -/
def parseJStr : List Char → List Char → Option (String × List Char)
  | acc, '"' :: rest => some (String.mk acc.reverse, rest)
  | acc, '\\' :: e :: rest =>
    match e with
    | '"' => parseJStr ('"' :: acc) rest
    | '\\' => parseJStr ('\\' :: acc) rest
    | '/' => parseJStr ('/' :: acc) rest
    | 'b' => parseJStr ('\x08' :: acc) rest
    | 'f' => parseJStr ('\x0c' :: acc) rest
    | 'n' => parseJStr ('\n' :: acc) rest
    | 'r' => parseJStr ('\r' :: acc) rest
    | 't' => parseJStr ('\t' :: acc) rest
    | 'u' =>
      match rest with
      | h1 :: h2 :: h3 :: h4 :: rest2 =>
        if isHexDig h1 && isHexDig h2 && isHexDig h3 && isHexDig h4 then
          let n := ((h1.toLower.toNat - if h1.isDigit then 48 else 87) * 4096 +
                    (h2.toLower.toNat - if h2.isDigit then 48 else 87) * 256 +
                    (h3.toLower.toNat - if h3.isDigit then 48 else 87) * 16 +
                    (h4.toLower.toNat - if h4.isDigit then 48 else 87))
          parseJStr (Char.ofNat n :: acc) rest2
        else none
      | _ => none
    | _ => none
  | acc, c :: rest => if c = '"' || c = '\\' then none else parseJStr (c :: acc) rest
  | _, [] => none

/-- Characters that may appear in a JSON number lexeme. -/
def isNumChar (c : Char) : Bool :=
  c.isDigit || c = '-' || c = '+' || c = '.' || c = 'e' || c = 'E'

mutual

/-- Parse one JSON value; the fuel bounds the nesting/element count. -/
def parseJVal : Nat → List Char → Option (Json × List Char)
  | 0, _ => none
  | fuel + 1, cs =>
    match cs.dropWhile isJsonWs with
    | 'n' :: 'u' :: 'l' :: 'l' :: rest => some (.jnull, rest)
    | 't' :: 'r' :: 'u' :: 'e' :: rest => some (.jbool true, rest)
    | 'f' :: 'a' :: 'l' :: 's' :: 'e' :: rest => some (.jbool false, rest)
    | '"' :: rest =>
      match parseJStr [] rest with
      | some (s, r) => some (.jstr s, r)
      | none => none
    | '[' :: rest =>
      (match (rest.dropWhile isJsonWs) with
       | ']' :: r2 => some (.jarr [], r2)
       | _ =>
         match parseJItems fuel rest with
         | some (es, r2) => some (.jarr es, r2)
         | none => none)
    | '{' :: rest =>
      (match (rest.dropWhile isJsonWs) with
       | '}' :: r2 => some (.jobj [], r2)
       | _ =>
         match parseJFields fuel rest with
         | some (kvs, r2) => some (.jobj kvs, r2)
         | none => none)
    | c :: rest =>
      if c.isDigit || c = '-' then
        let lex := c :: rest.takeWhile isNumChar
        some (.jnum (String.mk lex), rest.dropWhile isNumChar)
      else none
    | [] => none

/-- Parse the comma-separated elements of a non-empty array, up to and
including the closing bracket. -/
def parseJItems : Nat → List Char → Option (List Json × List Char)
  | 0, _ => none
  | fuel + 1, cs =>
    match parseJVal fuel cs with
    | none => none
    | some (v, r) =>
      match r.dropWhile isJsonWs with
      | ',' :: r2 =>
        (match parseJItems fuel r2 with
         | some (vs, r3) => some (v :: vs, r3)
         | none => none)
      | ']' :: r2 => some ([v], r2)
      | _ => none

/-- Parse the comma-separated members of a non-empty object, up to and
including the closing brace. -/
def parseJFields : Nat → List Char → Option (List (String × Json) × List Char)
  | 0, _ => none
  | fuel + 1, cs =>
    match cs.dropWhile isJsonWs with
    | '"' :: rest =>
      (match parseJStr [] rest with
       | none => none
       | some (k, r) =>
         match r.dropWhile isJsonWs with
         | ':' :: r2 =>
           (match parseJVal fuel r2 with
            | none => none
            | some (v, r3) =>
              match r3.dropWhile isJsonWs with
              | ',' :: r4 =>
                (match parseJFields fuel r4 with
                 | some (kvs, r5) => some ((k, v) :: kvs, r5)
                 | none => none)
              | '}' :: r4 => some ([(k, v)], r4)
              | _ => none)
         | _ => none)
    | _ => none

end

/-- `json.loads`: the whole text must be one value plus whitespace. -/
def jsonParse (s : String) : Option Json :=
  match parseJVal (s.length + 1) s.toList with
  | some (v, rest) => if rest.dropWhile isJsonWs = [] then some v else none
  | none => none

/-- Indentation blanks used by `json.dumps(indent=2)`. -/
def spaces (n : Nat) : List Char := List.replicate n ' '

/-- Lowercase hex digit. -/
def hexDigit (n : Nat) : Char :=
  if n < 10 then Char.ofNat (48 + n) else Char.ofNat (87 + n % 6)

/-- Four lowercase hex digits, as in Python `\uXXXX` escapes. -/
def hexQuad (n : Nat) : List Char :=
  [hexDigit (n / 4096 % 16), hexDigit (n / 256 % 16),
   hexDigit (n / 16 % 16), hexDigit (n % 16)]

/-- Escape one character the way `json.dumps` (ensure_ascii) does. -/
def jsonEscapeChar (c : Char) : List Char :=
  if c = '"' then ['\\', '"']
  else if c = '\\' then ['\\', '\\']
  else if c = '\n' then ['\\', 'n']
  else if c = '\t' then ['\\', 't']
  else if c = '\r' then ['\\', 'r']
  else if c = '\x08' then ['\\', 'b']
  else if c = '\x0c' then ['\\', 'f']
  else if c.val < 32 || c.val > 126 then
    if c.val < 65536 then '\\' :: 'u' :: hexQuad c.toNat
    else
      let v := c.toNat - 65536
      ('\\' :: 'u' :: hexQuad (55296 + v / 1024)) ++ ('\\' :: 'u' :: hexQuad (56320 + v % 1024))
  else [c]

/-- A JSON string literal as printed by `json.dumps`. -/
def jsonQuote (s : String) : List Char :=
  '"' :: (s.toList.foldr (fun c acc => jsonEscapeChar c ++ acc) ['"'])

mutual

/-- `json.dumps(v, indent=2)` rendered at indentation `ind`. -/
def dumpJVal (ind : Nat) : Json → List Char
  | .jnull => ['n', 'u', 'l', 'l']
  | .jbool true => ['t', 'r', 'u', 'e']
  | .jbool false => ['f', 'a', 'l', 's', 'e']
  | .jnum lex => lex.toList
  | .jstr s => jsonQuote s
  | .jarr [] => ['[', ']']
  | .jarr (e :: es) =>
    '[' :: '\n' :: (dumpJElems ind (e :: es) ++ ('\n' :: spaces ind ++ [']']))
  | .jobj [] => ['{', '}']
  | .jobj (kv :: kvs) =>
    '{' :: '\n' :: (dumpJFields ind (kv :: kvs) ++ ('\n' :: spaces ind ++ ['}']))

/-- Array elements, one per line, comma separated. -/
def dumpJElems (ind : Nat) : List Json → List Char
  | [] => []
  | [e] => spaces (ind + 2) ++ dumpJVal (ind + 2) e
  | e :: es =>
    spaces (ind + 2) ++ dumpJVal (ind + 2) e ++ (',' :: '\n' :: dumpJElems ind es)

/-- Object members, one per line, comma separated. -/
def dumpJFields (ind : Nat) : List (String × Json) → List Char
  | [] => []
  | [(k, v)] => spaces (ind + 2) ++ jsonQuote k ++ (':' :: ' ' :: dumpJVal (ind + 2) v)
  | (k, v) :: kvs =>
    spaces (ind + 2) ++ jsonQuote k ++ (':' :: ' ' :: dumpJVal (ind + 2) v)
      ++ (',' :: '\n' :: dumpJFields ind kvs)

end

/-- `json.dumps(data, indent=2)`. -/
def jsonDumps (v : Json) : String := String.mk (dumpJVal 0 v)

/-! ## NodeUpdater (dependency_updater.py lines 72-129) -/

/-- Python `x in data` for the container shapes `json.loads` can return:
substring test on strings, element test on arrays, key test on objects;
a non-container raises `TypeError` (line 100 `if section in data`). -/
def pyContains (j : Json) (s : String) : Except PyErr Bool :=
  match j with
  | .jobj kvs => .ok (kvs.any (fun p => p.1 = s))
  | .jarr es => .ok (es.any (fun e => match e with | .jstr t => t = s | _ => false))
  | .jstr t =>
    .ok ((List.length s.toList ≤ List.length t.toList) &&
      (List.range (List.length t.toList - List.length s.toList + 1)).any
        (fun i => (matchTail s.toList (t.toList.drop i)).isSome))
  | _ => .error .typeError

/-- The per-section update loop of lines 101-107: for each pending package
present as a key in the section object, overwrite its value with the
exact fixed version.  `data[section][pkg] = fixed_ver` on a non-object
section raises `TypeError`. -/
def nodePatchSection (sec : Json) (U : List (String × String)) :
    Except PyErr (Json × List String × Bool) :=
  match sec with
  | .jobj kvs =>
    .ok (U.foldl
      (fun acc p =>
        match acc with
        | (.jobj kvs0, ups, m) =>
          if kvs0.any (fun q => q.1 = p.1) then
            (.jobj (kvs0.map (fun q => if q.1 = p.1 then (q.1, .jstr p.2) else q)),
             ups ++ [p.1], true)
          else (.jobj kvs0, ups, m)
        | other => other)
      (.jobj kvs, [], false))
  | other =>
    match U.find? (fun p => (pyContains other p.1).toOption = some true) with
    | some _ => .error .typeError
    | none =>
      match other with
      | .jnum _ => .error .typeError
      | .jbool _ => .error .typeError
      | .jnull => .error .typeError
      | _ => .ok (other, [], false)

/-- One iteration of the `for section in [...]` loop of lines 99-107 over
the top-level object: when the section is present, patch it and collect
the packages updated there. -/
def nodeSectionStep (U : List (String × String))
    (st : List (String × Json) × List String × Bool)
    (sect : String) (has : Bool) :
    Except PyErr (List (String × Json) × List String × Bool) :=
  if has then
    match (st.1.find? (fun p => p.1 = sect)).map Prod.snd with
    | some sec =>
      match nodePatchSection sec U with
      | .ok (sec2, ups, m) =>
        .ok (st.1.map (fun p => if p.1 = sect then (sect, sec2) else p),
             st.2.1 ++ ups, st.2.2 || m)
      | .error e => .error e
    | none => .ok st
  else .ok st

/-- `NodeUpdater.update` (lines 73-129): parse `package.json`, overwrite
matching keys in `dependencies` and `devDependencies` with the exact fixed
version, re-serialise, then refresh the lockfile via `npm` when available
(its failure is swallowed). -/
def NodeUpdater.update (tools : Tools) (fs : FS) (vulns : List Finding) :
    Except PyErr (List String × FS) :=
  match FS.read fs "package.json" with
  | none => .ok ([], fs)
  | some content =>
    let U := kvUpdates vulns
    if U.isEmpty then .ok ([], fs)
    else
      match jsonParse content with
      | none => .ok ([], fs)
      | some data =>
        match pyContains data "dependencies" with
        | .error e => .error e
        | .ok hasDeps =>
          match pyContains data "devDependencies" with
          | .error e => .error e
          | .ok hasDev =>
            match data with
            | .jobj kvs =>
              match nodeSectionStep U (kvs, [], false) "dependencies" hasDeps with
              | .error e => .error e
              | .ok st1 =>
                match nodeSectionStep U st1 "devDependencies" hasDev with
                | .error e => .error e
                | .ok st2 =>
                  if st2.2.2 then
                    let fs1 := FS.write fs "package.json"
                      (jsonDumps (.jobj st2.1) ++ "\n")
                    let fs2 :=
                      if tools.hasNpm then
                        match tools.npmLock fs1 with
                        | some fsx => fsx
                        | none => fs1
                      else fs1
                    .ok (st2.2.1, fs2)
                  else .ok ([], fs)
            | _ =>
              -- `section in data` was decided above without error, so data
              -- is a string or array; both `data[section]` accesses are
              -- guarded by that membership, which is false for the section
              -- names in any manifest-shaped value, hence no update.
              if hasDeps || hasDev then .error .typeError else .ok ([], fs)


/-! ## PoetryUpdater (dependency_updater.py lines 131-200) -/

/-- The regex `^{pkg}\s*=` of lines 180 and 248 applied with `re.match` to
the stripped line: the line starts with the package name, then optional
whitespace, then `=`.  (The source interpolates `pkg` unescaped; the
embedding treats it as a literal, which coincides for names free of regex
metacharacters.) -/
def eqLineMatches (pkg : String) (clean : List Char) : Bool :=
  match matchTail pkg.toList clean with
  | none => false
  | some rest =>
    match rest.dropWhile isPyWs with
    | '=' :: _ => true
    | _ => false

/-- `re.sub(r'"[^\"]*"', f'"{ver}"', line)` of line 186, fuel-indexed so
the kernel can evaluate it: at a quote, a closed quoted substring is
replaced by the quoted new version and scanning resumes after it; an
opening quote that is never closed is kept as is (the pattern cannot
match at or after it).  Each step consumes at least one character, so
`fuel = length` is always enough. -/
def subQAux (ver : List Char) : Nat → List Char → List Char
  | 0, cs => cs
  | _, [] => []
  | fuel + 1, c :: rest =>
    if c = '"' then
      -- the scan for the closing quote: everything the class `[^"]*` can
      -- take is dropped, so the drop result is empty (no closing quote:
      -- the rest of the line is emitted unchanged) or starts with `"`.
      if (rest.dropWhile (fun x => x ≠ '"')).isEmpty then '"' :: rest
      else
        '"' :: (ver ++ ('"' ::
          subQAux ver fuel (rest.dropWhile (fun x => x ≠ '"')).tail))
    else c :: subQAux ver fuel rest

/-- The substitution of line 186 over a whole line. -/
def subQOut (ver cs : List Char) : List Char := subQAux ver cs.length cs

/-- The `poetry add` loop of lines 147-161: per-package CLI attempt; a
failed invocation is caught and the package is simply not recorded. -/
def poetryCliLoop (tools : Tools) :
    List (String × String) → List String → FS → List String × FS
  | [], updated, fs => (updated, fs)
  | (pkg, ver) :: rest, updated, fs =>
    match tools.poetryAdd pkg ver fs with
    | some fs2 => poetryCliLoop tools rest (updated ++ [pkg]) fs2
    | none => poetryCliLoop tools rest updated fs

/-- The text-fallback loop of lines 170-195: a line whose stripped form
matches a pending package not yet updated, and which contains a quote, is
rewritten by quoted-substring substitution; the growing `updated_pkgs`
list makes later duplicate lines of the same package pass through.
Returns the new lines, the final updated list and the modified flag. -/
def poetryFallbackLoop (U : List (String × String)) :
    List String → List (List Char) → List (List Char) × List String × Bool
  | updated, [] => ([], updated, false)
  | updated, l :: ls =>
    let clean := stripChars l
    match U.find? (fun p =>
        decide (p.1 ∉ updated) && eqLineMatches p.1 clean && l.contains '"') with
    | some (pkg, ver) =>
      let rest := poetryFallbackLoop U (updated ++ [pkg]) ls
      (subQOut ver.toList l :: rest.1, rest.2.1, true)
    | none =>
      let rest := poetryFallbackLoop U updated ls
      (l :: rest.1, rest.2.1, rest.2.2)

/-- `PoetryUpdater.update` (lines 132-200): CLI first, then text fallback
for the packages the CLI did not handle. -/
def PoetryUpdater.update (tools : Tools) (fs : FS) (vulns : List Finding) :
    Except PyErr (List String × FS) :=
  if (FS.read fs "pyproject.toml").isNone then .ok ([], fs)
  else
    let U := kvUpdates vulns
    if U.isEmpty then .ok ([], fs)
    else
      let cli := if tools.hasPoetry then poetryCliLoop tools U [] fs else ([], fs)
      if cli.1.length < U.length then
        match FS.read cli.2 "pyproject.toml" with
        | none => .error .fileNotFound
        | some content =>
          let r := poetryFallbackLoop U cli.1 (splitLinesL content.toList)
          let fs2 :=
            if r.2.2 then FS.write cli.2 "pyproject.toml" (String.mk (joinNL r.1))
            else cli.2
          .ok (r.2.1, fs2)
      else .ok (cli.1, cli.2)

/-! ## PipenvUpdater (dependency_updater.py lines 202-281) -/

/-- The import list of dependency_updater.py (lines 2-7).  Note that `os`
is not among them, although line 227 reads `os.environ`. -/
def dependencyUpdaterImports : List String :=
  ["pathlib", "typing", "re", "json", "subprocess", "shutil"]

/-- The `pipenv install` loop of lines 219-231.  Before the process is
spawned the argument `env={**os.environ, ...}` is evaluated; `os` is an
unbound name in this module, so the evaluation raises `NameError`, which
the `except subprocess.CalledProcessError` handler does not catch. -/
def pipenvCliLoop (tools : Tools) :
    List (String × String) → List String → FS → Except PyErr (List String × FS)
  | [], updated, fs => .ok (updated, fs)
  | (pkg, ver) :: rest, updated, fs =>
    if dependencyUpdaterImports.contains "os" then
      match tools.pipenvInstall pkg ver fs with
      | some fs2 => pipenvCliLoop tools rest (updated ++ [pkg]) fs2
      | none => pipenvCliLoop tools rest updated fs
    else .error .nameError

/-- `re.search(r'"([^\"]*)"', line)` of line 259: the body of the first
closed quoted substring of the line, if any. -/
def firstQuoted : List Char → Option (List Char)
  | [] => none
  | '"' :: rest =>
    (match rest.dropWhile (fun c => c ≠ '"') with
     | '"' :: _ => some (rest.takeWhile (fun c => c ≠ '"'))
     | _ => none)
  | _ :: rest => firstQuoted rest

/-- Python `line.replace(old, new)`: every non-overlapping occurrence,
scanned left to right (fuel is the line length; the pattern in use is
never empty). -/
def pyReplaceAux (target repl : List Char) : Nat → List Char → List Char
  | 0, cs => cs
  | _, [] => []
  | fuel + 1, c :: rest =>
    match matchTail target (c :: rest) with
    | some r => repl ++ pyReplaceAux target repl fuel r
    | none => c :: pyReplaceAux target repl fuel rest

/-- The Pipfile text-fallback loop of lines 240-276: like the poetry one,
but the replacement preserves a leading `==` pin inside the quotes, and
lines whose quote is never closed are passed over (the quoted-substring
search finds nothing). -/
def pipenvFallbackLoop (U : List (String × String)) :
    List String → List (List Char) → List (List Char) × List String × Bool
  | updated, [] => ([], updated, false)
  | updated, l :: ls =>
    let clean := stripChars l
    match U.find? (fun p =>
        decide (p.1 ∉ updated) && eqLineMatches p.1 clean && l.contains '"'
          && (firstQuoted l).isSome) with
    | some (pkg, ver) =>
      let old := (firstQuoted l).getD []
      let newv :=
        match old with
        | '=' :: '=' :: _ => '=' :: '=' :: ver.toList
        | _ => ver.toList
      let nl := pyReplaceAux ('"' :: (old ++ ['"'])) ('"' :: (newv ++ ['"']))
        l.length l
      let rest := pipenvFallbackLoop U (updated ++ [pkg]) ls
      (nl :: rest.1, rest.2.1, true)
    | none =>
      let rest := pipenvFallbackLoop U updated ls
      (l :: rest.1, rest.2.1, rest.2.2)

/-- `PipenvUpdater.update` (lines 203-281). -/
def PipenvUpdater.update (tools : Tools) (fs : FS) (vulns : List Finding) :
    Except PyErr (List String × FS) :=
  if (FS.read fs "Pipfile").isNone then .ok ([], fs)
  else
    let U := kvUpdates vulns
    if U.isEmpty then .ok ([], fs)
    else
      match (if tools.hasPipenv then pipenvCliLoop tools U [] fs
             else .ok ([], fs)) with
      | .error e => .error e
      | .ok (updated, fs1) =>
        if updated.length < U.length then
          match FS.read fs1 "Pipfile" with
          | none => .error .fileNotFound
          | some content =>
            let r := pipenvFallbackLoop U updated (splitLinesL content.toList)
            let fs2 :=
              if r.2.2 then FS.write fs1 "Pipfile" (String.mk (joinNL r.1))
              else fs1
            .ok (r.2.1, fs2)
        else .ok (updated, fs1)

/-! ## MavenUpdater (dependency_updater.py lines 283-337) -/

/-- `pkg.split(":", 1)[1]` when the name is namespaced (lines 314-316). -/
def artifactOf (pkg : String) : String :=
  if pkg.toList.contains ':' then
    match pkg.toList.dropWhile (fun c => c ≠ ':') with
    | _ :: rest => String.mk rest
    | [] => pkg
  else pkg

/-- Try the pattern
`(<artifactId>{art}</artifactId>\s*<version>)([^<]+)(</version>)`
at the head of the text: on a match, return the replacement chunk (group 1,
the new version, group 3) and the text after the match. -/
def mavenMatchAt (art ver cs : List Char) : Option (List Char × List Char) :=
  let openT := ('<' :: ('a' :: 'r' :: 't' :: 'i' :: 'f' :: 'a' :: 'c' :: 't' :: 'I' :: 'd' :: '>' :: art))
    ++ ('<' :: '/' :: 'a' :: 'r' :: 't' :: 'i' :: 'f' :: 'a' :: 'c' :: 't' :: 'I' :: 'd' :: '>' :: [])
  match matchTail openT cs with
  | none => none
  | some r0 =>
    let ws := r0.takeWhile isPyWs
    let r1 := r0.dropWhile isPyWs
    match matchTail "<version>".toList r1 with
    | none => none
    | some r2 =>
      let body := r2.takeWhile (fun c => c ≠ '<')
      let r3 := r2.dropWhile (fun c => c ≠ '<')
      if body.isEmpty then none
      else
        match matchTail "</version>".toList r3 with
        | none => none
        | some r4 =>
          some (openT ++ ws ++ "<version>".toList ++ ver ++ "</version>".toList, r4)

/-- `pattern.search(content)` (line 328). -/
def mavenFound (art : List Char) : Nat → List Char → Bool
  | 0, _ => false
  | _, [] => false
  | fuel + 1, c :: rest =>
    (mavenMatchAt art [] (c :: rest)).isSome || mavenFound art fuel rest

/-- `pattern.sub(...)` (line 329): replace every non-overlapping match,
scanning left to right. -/
def mavenSubAux (art ver : List Char) : Nat → List Char → List Char
  | 0, cs => cs
  | _, [] => []
  | fuel + 1, c :: rest =>
    match mavenMatchAt art ver (c :: rest) with
    | some (chunk, r4) => chunk ++ mavenSubAux art ver fuel r4
    | none => c :: mavenSubAux art ver fuel rest

/-- The `for pkg, ver in updates.items()` loop of lines 310-331. -/
def mavenLoop : List (String × String) → List Char → List String →
    List Char × List String
  | [], content, updated => (content, updated)
  | (pkg, ver) :: rest, content, updated =>
    let art := (artifactOf pkg).toList
    if mavenFound art content.length content then
      mavenLoop rest (mavenSubAux art ver.toList content.length content)
        (updated ++ [pkg])
    else mavenLoop rest content updated

/-- `MavenUpdater.update` (lines 284-337): regex substitution on the
version tag that immediately follows the matching artifact tag; the file
is rewritten only when the text actually changed. -/
def MavenUpdater.update (fs : FS) (vulns : List Finding) :
    List String × FS :=
  match FS.read fs "pom.xml" with
  | none => ([], fs)
  | some content =>
    let U := kvUpdates vulns
    if U.isEmpty then ([], fs)
    else
      let r := mavenLoop U content.toList []
      if String.mk r.1 ≠ content then
        (r.2, FS.write fs "pom.xml" (String.mk r.1))
      else ([], fs)

/-! ## DependencyUpdater (dependency_updater.py lines 339-358) -/

/-- The manifest dialects, in the dispatcher order of lines 341-347. -/
inductive UpdaterKind where
  | python
  | node
  | poetry
  | pipenv
  | maven
deriving DecidableEq, Repr

/-- The manifest file each Updater owns. -/
def manifestOf : UpdaterKind → String
  | .python => "requirements.txt"
  | .node => "package.json"
  | .poetry => "pyproject.toml"
  | .pipenv => "Pipfile"
  | .maven => "pom.xml"

/-- `updater.update(repo_path, vulnerabilities)` for each variant. -/
def runUpdater : UpdaterKind → Tools → FS → List Finding →
    Except PyErr (List String × FS)
  | .python, _, fs, vs => .ok (PythonUpdater.update fs vs)
  | .node, tools, fs, vs => NodeUpdater.update tools fs vs
  | .poetry, tools, fs, vs => PoetryUpdater.update tools fs vs
  | .pipenv, tools, fs, vs => PipenvUpdater.update tools fs vs
  | .maven, _, fs, vs => .ok (MavenUpdater.update fs vs)

/-- The fixed updater order of lines 341-347. -/
def updaterOrder : List UpdaterKind :=
  [.python, .node, .poetry, .pipenv, .maven]

/-- The `for updater in self.updaters` loop of lines 354-356; there is no
handler around `updater.update`, so an exception escaping one updater
aborts the remaining ones. -/
def runUpdaters (tools : Tools) (vulns : List Finding) :
    List UpdaterKind → List String → FS → Except PyErr (List String × FS)
  | [], acc, fs => .ok (acc, fs)
  | k :: ks, acc, fs =>
    match runUpdater k tools fs vulns with
    | .error e => .error e
    | .ok (ups, fs2) => runUpdaters tools vulns ks (acc ++ ups) fs2

/-- `DependencyUpdater.update_dependencies` (lines 349-358). -/
def DependencyUpdater.update_dependencies (tools : Tools) (fs : FS)
    (vulns : List Finding) : Except PyErr (List String × FS) :=
  runUpdaters tools vulns updaterOrder [] fs


/-! ## Finding Normalizer (src/agent/trivy_parser.py) -/

/-- One entry of the report's result container, with both key casings the
parser tolerates. -/
structure TrivyResult where
  Vulnerabilities : Option (List Finding) := none
  vulnerabilities : Option (List Finding) := none
deriving DecidableEq, Repr

/-- A Trivy report, with both key casings of the result container. -/
structure TrivyReport where
  Results : Option (List TrivyResult) := none
  results : Option (List TrivyResult) := none
deriving DecidableEq, Repr

/-- Python `a or b or []` on optional lists: `None` and `[]` are falsy. -/
def pyOrList {α : Type} (a b : Option (List α)) : List α :=
  match a with
  | some (x :: xs) => x :: xs
  | _ =>
    match b with
    | some (y :: ys) => y :: ys
    | _ => []

/-- `parse_trivy_report` (trivy_parser.py lines 5-17): flatten the nested
report into the findings list, in nesting order. -/
def parse_trivy_report (r : TrivyReport) : List Finding :=
  (pyOrList r.Results r.results).flatMap
    (fun res => pyOrList res.Vulnerabilities res.vulnerabilities)

/-! ## Pipeline Orchestrator (src/agent/repo_runner.py) -/

/-- Side effects of one run, recorded when the corresponding call is
issued. -/
inductive Effect where
  | clone
  | build
  | scan
  | saveReport
  | branch
  | depUpdate
  | writeSummary
  | testRun
  | commit
  | push
  | createPR
deriving DecidableEq, Repr

/-- The result dict of `run_repo`: the union of the keys the various
returns populate (absent keys are `none`). -/
structure Outcome where
  status : String
  step : Option String := none
  error : Option String := none
  action : Option String := none
  details : Option String := none
  reason : Option String := none
  pr_url : Option String := none
deriving DecidableEq, Repr

/-- External collaborator results for one run: git operations, docker
build, trivy scan, test run and change-request creation, as consumed by
`run_repo` (spec section 6: black-box calls). -/
structure Collab where
  cloneRes : Except String Unit := .ok ()
  buildOk : Bool := true
  scanReport : Option TrivyReport := none
  branchRes : Except String Unit := .ok ()
  testsPass : Bool := true
  commitRes : Except String Unit := .ok ()
  pushRes : Except String Unit := .ok ()
  createPr : String := "skipped"

/-- The severity filter of repo_runner.py line 60:
`v.get("Severity") in ["HIGH", "MEDIUM"]`. -/
def severityFilter (vs : List Finding) : List Finding :=
  vs.filter (fun v => v.Severity = some "HIGH" || v.Severity = some "MEDIUM")

/-- `RepoRunner.run_repo` (repo_runner.py lines 19-137), over the cloned
working tree `repoFs` and the collaborator oracles.  The only exception
that can escape is one raised inside `DependencyUpdater` (step 6), which
`run_repo` does not guard. -/
def RepoRunner.run_repo (c : Collab) (tools : Tools) (repoFs : FS) :
    Except PyErr (Outcome × List Effect) :=
  match c.cloneRes with
  | .error e =>
    .ok ({status := "failed", step := some "clone", error := some e}, [.clone])
  | .ok _ =>
    if !c.buildOk then
      .ok ({status := "failed", step := some "build",
            error := some "Docker build failed"}, [.clone, .build])
    else
      match c.scanReport with
      | none =>
        .ok ({status := "failed", step := some "scan",
              error := some "Trivy scan failed"}, [.clone, .build, .scan])
      | some report =>
        let vulns := parse_trivy_report report
        let hm := severityFilter vulns
        if hm.isEmpty then
          .ok ({status := "success", action := some "none",
                details := some "No vulnerabilities found"},
               [.clone, .build, .scan, .saveReport])
        else
          match c.branchRes with
          | .error e =>
            .ok ({status := "failed", step := some "git_branch",
                  error := some e},
                 [.clone, .build, .scan, .saveReport, .branch])
          | .ok _ =>
            match DependencyUpdater.update_dependencies tools repoFs hm with
            | .error pe => .error pe
            | .ok (updated, _) =>
              let tr := [Effect.clone, .build, .scan, .saveReport, .branch,
                .depUpdate, .writeSummary]
              if updated.isEmpty then
                .ok ({status := "skipped",
                      reason := some "no_updates_possible"}, tr)
              else if !c.testsPass then
                .ok ({status := "failed", step := some "tests",
                      error := some "Tests failed after update"},
                     tr ++ [.testRun])
              else
                match c.commitRes with
                | .error e =>
                  .ok ({status := "failed", step := some "git_push",
                        error := some e}, tr ++ [.testRun, .commit])
                | .ok _ =>
                  match c.pushRes with
                  | .error e =>
                    .ok ({status := "failed", step := some "git_push",
                          error := some e}, tr ++ [.testRun, .commit, .push])
                  | .ok _ =>
                    if c.createPr = "failed" then
                      .ok ({status := "failed", step := some "pr_creation",
                            error := some "PR creation failed"},
                           tr ++ [.testRun, .commit, .push, .createPR])
                    else
                      .ok ({status := "success", action := some "pr_created",
                            pr_url := some c.createPr},
                           tr ++ [.testRun, .commit, .push, .createPR])


/-! # Theorems for the specification claims -/

deriving instance DecidableEq for Except

/-- A LOW severity finding used as concrete input. -/
def lowFinding : Finding :=
  { PkgName := some "libx", FixedVersion := some "1.2.3",
    Severity := some "LOW", VulnerabilityID := some "CVE-2020-1" }

/-- A LOW-severity-only report used as concrete input. -/
def lowReport : TrivyReport :=
  { Results := some [{ Vulnerabilities := some [lowFinding] }] }

/-- A single-HIGH-finding report used as concrete input. -/
def highFinding : Finding :=
  { PkgName := some "requests", FixedVersion := some "2.31.0",
    Severity := some "HIGH", VulnerabilityID := some "CVE-2023-1" }

/-- The report wrapping `highFinding`. -/
def highReport : TrivyReport :=
  { Results := some [{ Vulnerabilities := some [highFinding] }] }

/-- C1: a run whose normalized findings contain no finding of severity
exactly HIGH or MEDIUM ends successfully with action "none", and the
branch-creation, dependency-update, commit, push and change-request side
effects are all absent from the run's effect trace. -/
theorem claim1_no_high_medium_success
    (c : Collab) (tools : Tools) (repoFs : FS) (r : TrivyReport)
    (hclone : c.cloneRes = .ok ())
    (hbuild : c.buildOk = true)
    (hscan : c.scanReport = some r)
    (hsev : ∀ v ∈ parse_trivy_report r,
      v.Severity ≠ some "HIGH" ∧ v.Severity ≠ some "MEDIUM") :
    ∃ tr,
      RepoRunner.run_repo c tools repoFs =
        .ok ({status := "success", action := some "none",
              details := some "No vulnerabilities found"}, tr) ∧
      Effect.branch ∉ tr ∧ Effect.depUpdate ∉ tr ∧
      Effect.commit ∉ tr ∧ Effect.push ∉ tr ∧ Effect.createPR ∉ tr := by
  have hhm : severityFilter (parse_trivy_report r) = [] := by
    apply List.filter_eq_nil_iff.mpr
    intro v hv
    have h := hsev v hv
    simp [h.1, h.2]
  refine ⟨[.clone, .build, .scan, .saveReport], ?_, by decide, by decide,
    by decide, by decide, by decide⟩
  simp [RepoRunner.run_repo, hclone, hbuild, hscan, hhm]

/-- C1 witness: a concrete run over a LOW-only report. -/
theorem claim1_witness :
    ∃ tr,
      RepoRunner.run_repo {scanReport := some lowReport} {} [] =
        .ok ({status := "success", action := some "none",
              details := some "No vulnerabilities found"}, tr) ∧
      Effect.branch ∉ tr ∧ Effect.depUpdate ∉ tr ∧
      Effect.commit ∉ tr ∧ Effect.push ∉ tr ∧ Effect.createPR ∉ tr :=
  claim1_no_high_medium_success {scanReport := some lowReport} {} []
    lowReport rfl rfl rfl (by decide)

/-- C2: with HIGH/MEDIUM findings present, at least one package updated
and a failing test run, the run terminates failed at step "tests" and the
commit, push and change-request effects never happen. -/
theorem claim2_tests_fail_aborts
    (c : Collab) (tools : Tools) (repoFs : FS) (r : TrivyReport)
    (ups : List String) (fs2 : FS)
    (hclone : c.cloneRes = .ok ())
    (hbuild : c.buildOk = true)
    (hscan : c.scanReport = some r)
    (hm : severityFilter (parse_trivy_report r) ≠ [])
    (hbranch : c.branchRes = .ok ())
    (hupd : DependencyUpdater.update_dependencies tools repoFs
      (severityFilter (parse_trivy_report r)) = .ok (ups, fs2))
    (hups : ups ≠ [])
    (htests : c.testsPass = false) :
    ∃ tr,
      RepoRunner.run_repo c tools repoFs =
        .ok ({status := "failed", step := some "tests",
              error := some "Tests failed after update"}, tr) ∧
      Effect.commit ∉ tr ∧ Effect.push ∉ tr ∧ Effect.createPR ∉ tr := by
  refine ⟨[.clone, .build, .scan, .saveReport, .branch, .depUpdate,
    .writeSummary, .testRun], ?_, by decide, by decide, by decide⟩
  simp [RepoRunner.run_repo, hclone, hbuild, hscan, hbranch, hupd, htests,
    List.isEmpty_iff, hm, hups]

/-- C2 witness: a concrete failing-tests run over a patched tree. -/
theorem claim2_witness :
    ∃ tr,
      RepoRunner.run_repo
          {scanReport := some highReport, testsPass := false} {}
          [("requirements.txt", "requests==2.0.0\n")] =
        .ok ({status := "failed", step := some "tests",
              error := some "Tests failed after update"}, tr) ∧
      Effect.commit ∉ tr ∧ Effect.push ∉ tr ∧ Effect.createPR ∉ tr :=
  claim2_tests_fail_aborts
    {scanReport := some highReport, testsPass := false} {}
    [("requirements.txt", "requests==2.0.0\n")] highReport
    ["requests"] [("requirements.txt", "requests>=2.31.0\n")]
    rfl rfl rfl (by decide) rfl (by decide) (by decide) rfl

/-- C10: once the run reaches change-request publication, the outcome is
a failure naming the publication step exactly when the publish call
returns the string "failed"; any other return value yields a success
outcome carrying that value verbatim as the change-request reference. -/
theorem claim10_pr_outcome
    (c : Collab) (tools : Tools) (repoFs : FS) (r : TrivyReport)
    (ups : List String) (fs2 : FS)
    (hclone : c.cloneRes = .ok ())
    (hbuild : c.buildOk = true)
    (hscan : c.scanReport = some r)
    (hm : severityFilter (parse_trivy_report r) ≠ [])
    (hbranch : c.branchRes = .ok ())
    (hupd : DependencyUpdater.update_dependencies tools repoFs
      (severityFilter (parse_trivy_report r)) = .ok (ups, fs2))
    (hups : ups ≠ [])
    (htests : c.testsPass = true)
    (hcommit : c.commitRes = .ok ())
    (hpush : c.pushRes = .ok ()) :
    ∃ out tr,
      RepoRunner.run_repo c tools repoFs = .ok (out, tr) ∧
      ((out.status = "failed" ∧ out.step = some "pr_creation") ↔
        c.createPr = "failed") ∧
      (c.createPr ≠ "failed" →
        out.status = "success" ∧ out.action = some "pr_created" ∧
        out.pr_url = some c.createPr) := by
  by_cases hpr : c.createPr = "failed"
  · refine ⟨{status := "failed", step := some "pr_creation", error := some "PR creation failed"},
      [.clone, .build, .scan, .saveReport, .branch, .depUpdate,
       .writeSummary, .testRun, .commit, .push, .createPR], ?_, ?_, ?_⟩
    · simp [RepoRunner.run_repo, hclone, hbuild, hscan, hbranch, hupd,
        htests, hcommit, hpush, hpr, List.isEmpty_iff, hm, hups]
    · simp [hpr]
    · intro h; exact absurd hpr h
  · refine ⟨{status := "success", action := some "pr_created", pr_url := some c.createPr},
      [.clone, .build, .scan, .saveReport, .branch, .depUpdate,
       .writeSummary, .testRun, .commit, .push, .createPR], ?_, ?_, ?_⟩
    · simp [RepoRunner.run_repo, hclone, hbuild, hscan, hbranch, hupd,
        htests, hcommit, hpush, hpr, List.isEmpty_iff, hm, hups]
    · constructor
      · rintro ⟨h, _⟩; simp at h
      · intro h; exact absurd h hpr
    · intro _; exact ⟨rfl, rfl, rfl⟩

/-- C10 witness: a run whose publish call returns "skipped" (no
credentials) ends successfully with that token as the reference. -/
theorem claim10_witness :
    ∃ out tr,
      RepoRunner.run_repo
          {scanReport := some highReport, createPr := "skipped"} {}
          [("requirements.txt", "requests==2.0.0\n")] = .ok (out, tr) ∧
      ((out.status = "failed" ∧ out.step = some "pr_creation") ↔
        ("skipped" : String) = "failed") ∧
      (("skipped" : String) ≠ "failed" →
        out.status = "success" ∧ out.action = some "pr_created" ∧
        out.pr_url = some "skipped") :=
  claim10_pr_outcome
    {scanReport := some highReport, createPr := "skipped"} {}
    [("requirements.txt", "requests==2.0.0\n")] highReport
    ["requests"] [("requirements.txt", "requests>=2.31.0\n")]
    rfl rfl rfl (by decide) rfl (by decide) (by decide) rfl rfl rfl

/-- C8: an Updater whose owned manifest is absent returns an empty update
list and leaves the working tree exactly as it was. -/
theorem claim8_absent_manifest_noop
    (k : UpdaterKind) (tools : Tools) (fs : FS) (vulns : List Finding)
    (habs : FS.read fs (manifestOf k) = none) :
    runUpdater k tools fs vulns = .ok ([], fs) := by
  cases k <;>
    simp_all [runUpdater, manifestOf, PythonUpdater.update,
      NodeUpdater.update, PoetryUpdater.update, PipenvUpdater.update,
      MavenUpdater.update]

/-- C8 witness: the tag-structured updater on a tree with no pom.xml. -/
theorem claim8_witness :
    runUpdater .maven {} [("requirements.txt", "requests==2.0.0\n")]
      [highFinding] =
      .ok ([], [("requirements.txt", "requests==2.0.0\n")]) :=
  claim8_absent_manifest_noop .maven {}
    [("requirements.txt", "requests==2.0.0\n")] [highFinding] rfl

/-- The pom.xml text surrounding the claim's tag pair. -/
def pomPre : String :=
  "<project>\n  <dependencies>\n    <dependency>\n      <groupId>com.x</groupId>\n      <artifactId>jackson-databind</artifactId><version>"

/-- The pom.xml text after the claim's version tag text. -/
def pomPost : String :=
  "</version>\n    </dependency>\n  </dependencies>\n</project>\n"

/-- The pom before the update, containing
`<artifactId>jackson-databind</artifactId><version>2.10.0</version>`. -/
def pomBefore : String := pomPre ++ "2.10.0" ++ pomPost

/-- The pom after the update: only the version tag text changed. -/
def pomAfter : String := pomPre ++ "2.12.0" ++ pomPost

/-- C9: on the claim's tag pair the version text becomes 2.12.0 and the
package is reported updated; a namespaced package name matches the same
tag through its artifact segment; everything outside the matched version
text is unchanged (the result differs from the input only in the version
digits, as the shared `pomPre`/`pomPost` context shows); a package with
no structural match yields no update and no change. -/
theorem claim9_maven :
    MavenUpdater.update [("pom.xml", pomBefore)]
        [{PkgName := some "jackson-databind", FixedVersion := some "2.12.0"}] =
      (["jackson-databind"], [("pom.xml", pomAfter)]) ∧
    MavenUpdater.update [("pom.xml", pomBefore)]
        [{PkgName := some "com.x:jackson-databind", FixedVersion := some "2.12.0"}] =
      (["com.x:jackson-databind"], [("pom.xml", pomAfter)]) ∧
    MavenUpdater.update [("pom.xml", pomBefore)]
        [{PkgName := some "left-pad", FixedVersion := some "1.0.0"}] =
      ([], [("pom.xml", pomBefore)]) := by
  refine ⟨by decide, by decide, by decide⟩

/-- The tools of a machine where pipenv is on the PATH. -/
def pipenvTools : Tools := { hasPipenv := true }

/-- A tree with a Pipfile and a pom.xml, both of which have a pending
update. -/
def c4fs : FS :=
  [("Pipfile", "[packages]\nrequests = \"==2.25.1\"\n"),
   ("pom.xml", pomBefore)]

/-- The findings for the C4 failing input. -/
def c4vulns : List Finding :=
  [{PkgName := some "requests", FixedVersion := some "2.26.0"},
   {PkgName := some "jackson-databind", FixedVersion := some "2.12.0"}]

/-- C4 (code bug): dependency_updater.py line 227 evaluates `os.environ`
although the module never imports `os` (lines 2-7), so as soon as pipenv
is available and a package is pending, `PipenvUpdater.update` raises
`NameError`; the `except subprocess.CalledProcessError` handler does not
catch it, there is no handler in `update_dependencies` either, and the
Maven updater that would have patched pom.xml never runs. -/
theorem claim4_nameerror_aborts :
    DependencyUpdater.update_dependencies pipenvTools c4fs c4vulns =
      .error .nameError ∧
    (MavenUpdater.update c4fs c4vulns).1 = ["jackson-databind"] ∧
    "os" ∉ dependencyUpdaterImports := by
  refine ⟨by decide, by decide, by decide⟩

/-! ### C5: Update Set construction -/

/-- In-place overwrite: the first entry carrying the key now carries the
new value. -/
theorem findMapInsert (k v : String) :
    ∀ d : List (String × String), d.any (fun p => p.1 = k) = true →
      List.find? (fun p => p.1 = k)
        (List.map (fun p => if p.1 = k then (k, v) else p) d) = some (k, v) := by
  intro d
  induction d with
  | nil => intro h; simp at h
  | cons p d ih =>
    intro h
    by_cases hp : p.1 = k
    · rw [List.map_cons, if_pos hp, List.find?_cons_of_pos]
      simp
    · have h2 : d.any (fun p => p.1 = k) = true := by
        cases hany : d.any (fun p => p.1 = k)
        · simp [List.any_cons, hp, hany] at h
        · rfl
      rw [List.map_cons, if_neg hp, List.find?_cons_of_neg]
      · exact ih h2
      · simp [hp]

/-- Append of a fresh key: the appended entry is the one found. -/
theorem findAppendAbsent (k v : String) :
    ∀ d : List (String × String), d.any (fun p => p.1 = k) = false →
      List.find? (fun p => p.1 = k) (d ++ [(k, v)]) = some (k, v) := by
  intro d
  induction d with
  | nil =>
    intro _
    rw [List.nil_append, List.find?_cons_of_pos]
    simp
  | cons p d ih =>
    intro h
    have hp : ¬ p.1 = k := by
      intro hh; simp [List.any_cons, hh] at h
    have h2 : d.any (fun p => p.1 = k) = false := by
      cases hany : d.any (fun p => p.1 = k)
      · rfl
      · simp [List.any_cons, hany] at h
    rw [List.cons_append, List.find?_cons_of_neg]
    · exact ih h2
    · simp [hp]

/-- Looking up the just-assigned key yields the just-assigned value. -/
theorem lookup_dictInsert_self (d : List (String × String)) (k v : String) :
    lookupDict (dictInsert d k v) k = some v := by
  unfold dictInsert lookupDict
  by_cases h : d.any (fun p => p.1 = k)
  · rw [if_pos h, findMapInsert k v d h]
    rfl
  · rw [if_neg h, findAppendAbsent k v d
      (by cases hany : d.any (fun p => p.1 = k)
          · rfl
          · exact absurd hany h)]
    rfl

/-- In-place overwrite of one key does not change what any other key
finds. -/
theorem findMapInsertOther (k v k2 : String) (h : k2 ≠ k) :
    ∀ d : List (String × String),
      List.find? (fun p => p.1 = k2)
        (List.map (fun p => if p.1 = k then (k, v) else p) d) =
      List.find? (fun p => p.1 = k2) d := by
  intro d
  induction d with
  | nil => rfl
  | cons p d ih =>
    by_cases hp : p.1 = k
    · have hk2 : ¬ (k = k2) := fun hh => h hh.symm
      have hpk2 : ¬ p.1 = k2 := by rw [hp]; exact hk2
      rw [List.map_cons, if_pos hp, List.find?_cons_of_neg, List.find?_cons_of_neg]
      · exact ih
      · simp [hpk2]
      · simp [hk2]
    · rw [List.map_cons, if_neg hp]
      by_cases hp2 : p.1 = k2
      · rw [List.find?_cons_of_pos, List.find?_cons_of_pos] <;> simp [hp2]
      · rw [List.find?_cons_of_neg, List.find?_cons_of_neg]
        · exact ih
        · simp [hp2]
        · simp [hp2]

/-- Appending one key does not change what any other key finds. -/
theorem findAppendOther (k v k2 : String) (h : k2 ≠ k) :
    ∀ d : List (String × String),
      List.find? (fun p => p.1 = k2) (d ++ [(k, v)]) =
      List.find? (fun p => p.1 = k2) d := by
  intro d
  induction d with
  | nil =>
    rw [List.nil_append, List.find?_cons_of_neg]
    simp only [decide_eq_true_eq]
    exact fun hh => h hh.symm
  | cons p d ih =>
    by_cases hp2 : p.1 = k2
    · rw [List.cons_append, List.find?_cons_of_pos, List.find?_cons_of_pos] <;>
        simp [hp2]
    · rw [List.cons_append, List.find?_cons_of_neg, List.find?_cons_of_neg]
      · exact ih
      · simp [hp2]
      · simp [hp2]

/-- Assigning one key leaves every other key's lookup unchanged. -/
theorem lookup_dictInsert_other (d : List (String × String)) (k v k2 : String)
    (h : k2 ≠ k) : lookupDict (dictInsert d k v) k2 = lookupDict d k2 := by
  unfold dictInsert lookupDict
  by_cases ha : d.any (fun p => p.1 = k)
  · rw [if_pos ha, findMapInsertOther k v k2 h d]
  · rw [if_neg ha, findAppendOther k v k2 h d]

/-- The fixed versions the Update Set loop accepts for one package, in
Finding order. -/
def relFixed (vulns : List Finding) (pkg : String) : List String :=
  vulns.filterMap (fun v =>
    match truthyStr v.PkgName, truthyStr v.FixedVersion with
    | some p, some f => if p = pkg then some f else none
    | _, _ => none)

/-- Unfolding `relFixed` over the head Finding. -/
theorem relFixed_cons (v : Finding) (vs : List Finding) (pkg : String) :
    relFixed (v :: vs) pkg =
      (match truthyStr v.PkgName, truthyStr v.FixedVersion with
       | some p, some f =>
         if p = pkg then f :: relFixed vs pkg else relFixed vs pkg
       | _, _ => relFixed vs pkg) := by
  unfold relFixed
  rw [List.filterMap_cons]
  cases truthyStr v.PkgName with
  | none => rfl
  | some p =>
    cases truthyStr v.FixedVersion with
    | none => rfl
    | some f =>
      by_cases hpk : p = pkg
      · simp [hpk]
      · simp [hpk]

/-- The Update Set loop maps a package to the transform of the fixed
version of the last Finding that mentions it, whatever the starting
dict. -/
theorem lookup_foldl_updStep (g : String → String) (vs : List Finding) :
    ∀ (d : List (String × String)) (pkg : String),
      lookupDict (vs.foldl (updStep g) d) pkg =
        (match (relFixed vs pkg).getLast? with
         | some f => some (g f)
         | none => lookupDict d pkg) := by
  induction vs with
  | nil => intro d pkg; simp [relFixed]
  | cons v vs ih =>
    intro d pkg
    rw [List.foldl_cons, ih, relFixed_cons]
    cases hp : truthyStr v.PkgName with
    | none => simp [updStep, hp]
    | some p =>
      cases hf : truthyStr v.FixedVersion with
      | none => simp [updStep, hp, hf]
      | some f0 =>
        simp only [updStep, hp, hf]
        by_cases hpk : p = pkg
        · rw [if_pos hpk]
          subst hpk
          rcases hl : relFixed vs p with _ | ⟨x, xs⟩
          · simp [lookup_dictInsert_self]
          · rcases hxy : (x :: xs).getLast? with _ | y
            · have : (x :: xs) ≠ [] := by simp
              rw [← List.getLast?_isSome, hxy] at this
              simp at this
            · simp [List.getLast?_cons_cons, hxy]
        · rw [if_neg hpk]
          have hne : pkg ≠ p := fun hh => hpk hh.symm
          rcases (relFixed vs pkg).getLast? with _ | y
          · simp [lookup_dictInsert_other d p (g f0) pkg hne]
          · simp

/-- The cross-updater counterexample input: lodash appears in two
Findings, the last carrying a comma-separated fixed version. -/
def c5vulns : List Finding :=
  [{PkgName := some "lodash", FixedVersion := some "4.17.11"},
   {PkgName := some "lodash", FixedVersion := some "4.17.12, 4.17.21"}]

/-- C5 counterexample: the key-value Update Set used by NodeUpdater (and
the poetry/pipenv/maven updaters) stores the last fixed version verbatim,
not its last comma-separated alternative, so the claim's "every Updater"
reduction fails there (only the pinned-list updater reduces). -/
theorem claim5_counterexample :
    lookupDict (kvUpdates c5vulns) "lodash" = some "4.17.12, 4.17.21" ∧
    lookupDict (pyUpdates c5vulns) "lodash" = some "4.17.21" ∧
    ("4.17.12, 4.17.21" : String) ≠ "4.17.21" := by
  refine ⟨by decide, by decide, by decide⟩

/-- C5 amended: for every Updater the Update Set maps a package appearing
in Findings to the fixed version of the last such Finding — reduced to the
last comma-separated alternative only in the pinned-list updater; the
other four updaters store it verbatim. -/
theorem claim5_amended (vulns : List Finding) (pkg f : String)
    (hlast : (relFixed vulns pkg).getLast? = some f) :
    lookupDict (pyUpdates vulns) pkg = some (commaLastStrip f) ∧
    lookupDict (kvUpdates vulns) pkg = some f := by
  constructor
  · rw [pyUpdates, lookup_foldl_updStep, hlast]
  · rw [kvUpdates, lookup_foldl_updStep, hlast]

/-- C5 witness: the amended rule evaluated on the counterexample input. -/
theorem claim5_witness :
    lookupDict (pyUpdates c5vulns) "lodash" =
      some (commaLastStrip "4.17.12, 4.17.21") ∧
    lookupDict (kvUpdates c5vulns) "lodash" = some "4.17.12, 4.17.21" :=
  claim5_amended c5vulns "lodash" "4.17.12, 4.17.21" (by decide)

/-! ### C6: the declarative-table text fallback -/

/-- Replacement of only the first quoted substring of a line.  Modelled
from the spec: "replace the first quoted substring on that line with the
new version, preserving the rest of the line" — the comparison point for
the code's replace-all behaviour. -/
def specReplaceFirstQuoted (ver : List Char) : List Char → List Char
  | [] => []
  | '"' :: rest =>
    (match rest.dropWhile (fun c => c ≠ '"') with
     | '"' :: after => '"' :: (ver ++ ('"' :: after))
     | _ => '"' :: rest)
  | c :: rest => c :: specReplaceFirstQuoted ver rest

/-- The Finding list for the C6 inputs. -/
def c6vulns : List Finding :=
  [{PkgName := some "requests", FixedVersion := some "2.26.0"}]

/-- The pyproject line with two quoted substrings. -/
def c6line : String :=
  "requests = \x7bversion = \"2.25.1\", extras = \"security\"\x7d"

/-- C6 counterexample: on a matching line with two quoted substrings the
fallback of PoetryUpdater rewrites both of them (re.sub with no count),
so the second quoted value `"security"` is clobbered with the version —
the rest of the line is not preserved and more than the first quoted
substring changes. -/
theorem claim6_counterexample :
    PoetryUpdater.update {} [("pyproject.toml",
        "[tool.poetry.dependencies]\n" ++ c6line ++ "\n")] c6vulns =
      .ok (["requests"],
        [("pyproject.toml",
          "[tool.poetry.dependencies]\nrequests = \x7bversion = \"2.26.0\", extras = \"2.26.0\"\x7d\n")]) ∧
    specReplaceFirstQuoted "2.26.0".toList c6line.toList =
      ("requests = \x7bversion = \"2.26.0\", extras = \"security\"\x7d").toList ∧
    subQOut "2.26.0".toList c6line.toList ≠
      specReplaceFirstQuoted "2.26.0".toList c6line.toList := by
  refine ⟨by decide, by decide, by decide⟩

/-- Dropping a prefix never lengthens a list. -/
theorem dropWhileLenLe {α : Type} (p : α → Bool) :
    ∀ l : List α, (l.dropWhile p).length ≤ l.length := by
  intro l
  induction l with
  | nil => simp
  | cons c rest ih =>
    rw [List.dropWhile_cons]
    split
    · exact Nat.le_succ_of_le ih
    · exact Nat.le_refl _

/-- Unfolding equation of `subQAux` at an opening quote. -/
theorem subQAux_cons_quote (ver : List Char) (fuel : Nat) (rest : List Char) :
    subQAux ver (fuel + 1) ('"' :: rest) =
      if (rest.dropWhile (fun x => x ≠ '"')).isEmpty then '"' :: rest
      else '"' :: (ver ++ ('"' ::
        subQAux ver fuel (rest.dropWhile (fun x => x ≠ '"')).tail)) := by
  rfl

/-- Unfolding equation of `subQAux` at a non-quote character. -/
theorem subQAux_cons_nonquote (ver : List Char) (fuel : Nat) (c : Char)
    (rest : List Char) (hc : c ≠ '"') :
    subQAux ver (fuel + 1) (c :: rest) = c :: subQAux ver fuel rest := by
  simp [subQAux, hc]

/-- Any fuel at least the length is enough: the result is fuel
independent. -/
theorem subQAux_fuelIrrel (ver : List Char) :
    ∀ (n : Nat) (cs : List Char) (f1 f2 : Nat), cs.length ≤ n →
      cs.length ≤ f1 → cs.length ≤ f2 →
      subQAux ver f1 cs = subQAux ver f2 cs := by
  intro n
  induction n with
  | zero =>
    intro cs f1 f2 h _ _
    have hnil : cs = [] := List.length_eq_zero.mp (Nat.le_zero.mp h)
    subst hnil
    cases f1 <;> cases f2 <;> rfl
  | succ n ih =>
    intro cs f1 f2 h h1 h2
    cases cs with
    | nil => cases f1 <;> cases f2 <;> rfl
    | cons c rest =>
      cases f1 with
      | zero => simp at h1
      | succ g1 =>
        cases f2 with
        | zero => simp at h2
        | succ g2 =>
          by_cases hc : c = '"'
          · subst hc
            rw [subQAux_cons_quote, subQAux_cons_quote]
            rcases hd : rest.dropWhile (fun x => x ≠ '"') with _ | ⟨c2, after⟩
            · simp
            · have hlen : after.length + 1 ≤ rest.length := by
                have hle := dropWhileLenLe (fun x => x ≠ '"') rest
                rw [hd] at hle
                simpa using hle
              simp only [List.length_cons] at h h1 h2
              have hrec : subQAux ver g1 after = subQAux ver g2 after :=
                ih after g1 g2 (by omega) (by omega) (by omega)
              simp [hrec]
          · simp only [List.length_cons] at h h1 h2
            have hrec : subQAux ver g1 rest = subQAux ver g2 rest :=
              ih rest g1 g2 (by omega) (by omega) (by omega)
            rw [subQAux_cons_nonquote ver g1 c rest hc,
              subQAux_cons_nonquote ver g2 c rest hc, hrec]

/-- A line without quotes is returned unchanged (no pattern match). -/
theorem subQAux_noQuote (ver : List Char) :
    ∀ (a : List Char) (fuel : Nat), '"' ∉ a → subQAux ver fuel a = a := by
  intro a
  induction a with
  | nil => intro fuel _; cases fuel <;> rfl
  | cons c rest ih =>
    intro fuel h
    have hc : c ≠ '"' := fun hh => h (hh ▸ List.mem_cons_self c rest)
    have hr : '"' ∉ rest := fun hm => h (List.mem_cons_of_mem c hm)
    cases fuel with
    | zero => rfl
    | succ f =>
      rw [subQAux_cons_nonquote ver f c rest hc, ih f hr]

/-- Dropping the non-quote prefix lands exactly on the quote. -/
theorem dropWhile_quoteFree (b l : List Char) (hb : '"' ∉ b) :
    (b ++ '"' :: l).dropWhile (fun x => x ≠ '"') = '"' :: l := by
  induction b with
  | nil => simp
  | cons c b ih =>
    have hc : c ≠ '"' := fun hh => hb (hh ▸ List.mem_cons_self c b)
    have hb2 : '"' ∉ b := fun hm => hb (List.mem_cons_of_mem c hm)
    rw [List.cons_append, List.dropWhile_cons,
      if_pos (show (decide (c ≠ '"')) = true by simp [hc])]
    exact ih hb2

/-- One closed quoted substring is replaced and scanning resumes after
it, with some sufficient remaining fuel. -/
theorem subQAux_quoted (ver : List Char) :
    ∀ (a : List Char) (fuel : Nat) (b c : List Char), '"' ∉ a → '"' ∉ b →
      (a ++ '"' :: (b ++ '"' :: c)).length ≤ fuel →
      ∃ f2, c.length ≤ f2 ∧
        subQAux ver fuel (a ++ '"' :: (b ++ '"' :: c)) =
          a ++ '"' :: (ver ++ '"' :: subQAux ver f2 c) := by
  intro a
  induction a with
  | nil =>
    intro fuel b c _ hb hlen
    cases fuel with
    | zero => simp [List.length_append] at hlen
    | succ f =>
      refine ⟨f, ?_, ?_⟩
      · simp [List.length_append] at hlen
        omega
      · rw [List.nil_append, subQAux_cons_quote, dropWhile_quoteFree b c hb]
        simp
  | cons x a2 ih =>
    intro fuel b c hx hb hlen
    have hxq : x ≠ '"' := fun hh => hx (hh ▸ List.mem_cons_self x a2)
    have ha2 : '"' ∉ a2 := fun hm => hx (List.mem_cons_of_mem x hm)
    cases fuel with
    | zero => simp [List.length_append] at hlen
    | succ f =>
      have hlen2 : (a2 ++ '"' :: (b ++ '"' :: c)).length ≤ f := by
        simp only [List.cons_append, List.length_cons] at hlen
        omega
      obtain ⟨f2, hf2, heq⟩ := ih f b c ha2 hb hlen2
      refine ⟨f2, hf2, ?_⟩
      rw [List.cons_append, subQAux_cons_nonquote ver f x _ hxq, heq, List.cons_append]

/-- C6 amended: on a line whose left-hand token equals a pending package
name not already updated by the external tool (and which contains a
quote), the fallback replaces every closed quoted substring of the line
with the new version, text outside quoted substrings being preserved:
text without quotes passes through unchanged, and each quoted group
`"..."` becomes `"ver"` with scanning resuming after it. -/
theorem claim6_amended (ver : String) :
    (∀ a : List Char, '"' ∉ a → subQOut ver.toList a = a) ∧
    (∀ a b c : List Char, '"' ∉ a → '"' ∉ b →
      subQOut ver.toList (a ++ '"' :: (b ++ '"' :: c)) =
        a ++ '"' :: (ver.toList ++ '"' :: subQOut ver.toList c)) ∧
    (∀ (U : List (String × String)) (updated : List String)
       (l : List Char) (ls : List (List Char)) (pkg vfix : String),
      U.find? (fun p => decide (p.1 ∉ updated) &&
        eqLineMatches p.1 (stripChars l) && l.contains '"') = some (pkg, vfix) →
      (poetryFallbackLoop U updated (l :: ls)).1 =
        subQOut vfix.toList l :: (poetryFallbackLoop U (updated ++ [pkg]) ls).1) := by
  refine ⟨?_, ?_, ?_⟩
  · intro a ha
    exact subQAux_noQuote ver.toList a a.length ha
  · intro a b c ha hb
    unfold subQOut
    obtain ⟨f2, hf2, heq⟩ :=
      subQAux_quoted ver.toList a (a ++ '"' :: (b ++ '"' :: c)).length b c
        ha hb (Nat.le_refl _)
    rw [heq, subQAux_fuelIrrel ver.toList c.length c f2 c.length
      (Nat.le_refl _) hf2 (Nat.le_refl _)]
  · intro U updated l ls pkg vfix hfind
    simp only [poetryFallbackLoop]
    rw [hfind]

/-- C6 witness: the amended behaviour evaluated on a concrete line. -/
theorem claim6_witness :
    subQOut "2.26.0".toList "flask = ".toList ++ [] = "flask = ".toList ∧
    subQOut "2.26.0".toList
        ("flask = ".toList ++ '"' :: ("1.1.2".toList ++ '"' :: " # x".toList)) =
      "flask = ".toList ++ '"' ::
        ("2.26.0".toList ++ '"' :: subQOut "2.26.0".toList " # x".toList) := by
  constructor
  · rw [List.append_nil]
    exact (claim6_amended "2.26.0").1 "flask = ".toList (by decide)
  · exact (claim6_amended "2.26.0").2.1 "flask = ".toList "1.1.2".toList
      " # x".toList (by decide) (by decide)

/-! ### C3: pinned-list round trip -/

/-- The processed lines are the per-line images, in order. -/
theorem pyLoop_fst (U : List (String × String)) :
    ∀ ls, (pyLoop U ls).1 = ls.map (fun l => (applyLineL U l).1) := by
  intro ls
  induction ls with
  | nil => rfl
  | cons l ls ih =>
    simp only [pyLoop, List.map_cons]
    cases h : (applyLineL U l).2 <;> simp [h, ih]

/-- One matching line sets the modified flag. -/
theorem pyLoop_modTrue (U : List (String × String)) :
    ∀ (ls : List (List Char)) (l : List Char), l ∈ ls →
      (applyLineL U l).2.isSome → (pyLoop U ls).2.2 = true := by
  intro ls
  induction ls with
  | nil => intro l h; simp at h
  | cons x ls ih =>
    intro l hmem hsome
    simp only [pyLoop]
    rcases List.mem_cons.mp hmem with heq | hmem2
    · subst heq
      cases hx : (applyLineL U l).2 with
      | none => rw [hx] at hsome; simp at hsome
      | some pkg => simp [hx]
    · cases hx : (applyLineL U x).2 with
      | none => simp [hx, ih l hmem2 hsome]
      | some pkg => simp [hx]

/-- Reading back the file just written yields the written content. -/
theorem FS.read_write_self (fs : FS) (n c : String) :
    FS.read (FS.write fs n c) n = some c := by
  unfold FS.write
  by_cases h : List.any fs (fun p => p.1 = n)
  · rw [if_pos h]
    unfold FS.read
    rw [findMapInsert n c fs h]
    rfl
  · rw [if_neg h]
    unfold FS.read
    rw [findAppendAbsent n c fs
      (by cases hany : List.any fs (fun p => p.1 = n)
          · rfl
          · exact absurd hany h)]
    rfl

/-- The C3 Finding: fix package `pkg` at version 2.0.0. -/
def reqFinding : Finding := {PkgName := some "pkg", FixedVersion := some "2.0.0"}

/-- "ends with exactly one trailing newline": final character is a
newline and the character before it (if any) is not. -/
def endsWithSingleNL (s : String) : Bool :=
  match s.toList.reverse with
  | '\n' :: c :: _ => decide (c ≠ '\n')
  | ['\n'] => true
  | _ => false

/-- C3 counterexample: on a requirements file whose last line is blank
(content ends in two newlines) the rewrite keeps the blank line and
appends the final newline, so the output ends with two newline
characters, not exactly one. -/
theorem claim3_counterexample :
    FS.read ((PythonUpdater.update
        [("requirements.txt", "pkg>=1.0.0 # note\n\n")] [reqFinding]).2)
        "requirements.txt" = some "pkg>=2.0.0 # note\n\n" ∧
    endsWithSingleNL "pkg>=2.0.0 # note\n\n" = false := by
  refine ⟨by decide, by decide⟩

/-- C3 amended: with a Finding fixing `pkg` at 2.0.0, the line
`pkg>=1.0.0 # note` is rewritten to `pkg>=2.0.0 # note` (comment
preserved); every line that is blank or matches no pending update is kept
byte-identical; and the written file is exactly the processed lines
joined by single newlines with exactly one newline appended at the end
(so the output ends with exactly one trailing newline unless the input's
final line is itself blank). -/
theorem claim3_amended :
    (applyLineL (pyUpdates [reqFinding]) "pkg>=1.0.0 # note".toList =
      ("pkg>=2.0.0 # note".toList, some "pkg")) ∧
    (∀ l : List Char,
      (cleanL l = [] ∨
        (pyUpdates [reqFinding]).find?
          (fun p => reqMatches p.1 (cleanL l)) = none) →
      applyLineL (pyUpdates [reqFinding]) l = (l, none)) ∧
    (∀ (fs : FS) (content : String),
      FS.read fs "requirements.txt" = some content →
      "pkg>=1.0.0 # note".toList ∈ splitLinesL content.toList →
      FS.read ((PythonUpdater.update fs [reqFinding]).2) "requirements.txt" =
        some (String.mk (joinNL ((splitLinesL content.toList).map
          (fun l => (applyLineL (pyUpdates [reqFinding]) l).1))))) := by
  refine ⟨by decide, ?_, ?_⟩
  · intro l h
    unfold applyLineL
    rcases h with h1 | h2
    · simp [h1]
    · by_cases hc : cleanL l = []
      · simp [hc]
      · simp [hc, h2]
  · intro fs content hread hmem
    have hmod : (pyLoop (pyUpdates [reqFinding])
        (splitLinesL content.toList)).2.2 = true :=
      pyLoop_modTrue (pyUpdates [reqFinding]) (splitLinesL content.toList)
        _ hmem (by decide)
    have hne : (pyUpdates [reqFinding]).isEmpty = false := by decide
    simp only [PythonUpdater.update, hread]
    simp only [String.toList] at hmod
    simp [hne, hmod, pyLoop_fst, FS.read_write_self]

/-- The C3 witness content: an untouched pin, a blank line, the claim's
line and a second untouched line. -/
def c3content : String := "keep==1.0\n\npkg>=1.0.0 # note\nother>=2 # x\n"

/-- C3 witness: the amended statement evaluated on `c3content`. -/
theorem claim3_witness :
    FS.read ((PythonUpdater.update [("requirements.txt", c3content)]
        [reqFinding]).2) "requirements.txt" =
      some (String.mk (joinNL ((splitLinesL c3content.toList).map
        (fun l => (applyLineL (pyUpdates [reqFinding]) l).1)))) :=
  claim3_amended.2.2 [("requirements.txt", c3content)] c3content rfl
    (by decide)

/-! ### C7: pinned-list idempotence -/

/-- The C7 counterexample Findings: a package name containing a version
operator character shadows a shorter name after the first rewrite. -/
def c7vulns : List Finding :=
  [{PkgName := some "ab>", FixedVersion := some "9"},
   {PkgName := some "ab", FixedVersion := some "1"}]

/-- C7 counterexample: the first application rewrites `ab==1` to
`ab>=1`; the second application matches the rewritten line against the
earlier key `ab>` and produces `ab>>=9`, so applying the updater twice
with the same Findings changes the file again. -/
theorem claim7_counterexample :
    FS.read ((PythonUpdater.update [("requirements.txt", "ab==1")]
        c7vulns).2) "requirements.txt" = some "ab>=1\n" ∧
    FS.read ((PythonUpdater.update
        ((PythonUpdater.update [("requirements.txt", "ab==1")] c7vulns).2)
        c7vulns).2) "requirements.txt" = some "ab>>=9\n" ∧
    ("ab>=1\n" : String) ≠ "ab>>=9\n" := by
  refine ⟨by decide, by decide, by decide⟩

/-- A character allowed in a well-formed package name: not whitespace,
not a version operator, not the comment character, not a line break. -/
def goodPkgChar (c : Char) : Bool :=
  !isPyWs c && !opChar c && c ≠ '#' && !isLB c

/-- A character allowed in a well-formed fixed version: not the comment
character and not a line break. -/
def goodVerChar (c : Char) : Bool := c ≠ '#' && !isLB c

/-- A well-formed Update Set: non-empty package names of good characters,
versions of good characters. -/
def goodUpdates (U : List (String × String)) : Bool :=
  U.all (fun p =>
    !p.1.toList.isEmpty && p.1.toList.all goodPkgChar &&
      p.2.toList.all goodVerChar)

/-- The key list of an update dict. -/
def dictKeys (d : List (String × String)) : List String := d.map Prod.fst

/-- Overwriting a value in place never changes the key list. -/
theorem mapInsertKeys (k v : String) :
    ∀ d : List (String × String),
      List.map Prod.fst
        (List.map (fun p => if p.1 = k then (k, v) else p) d) =
      List.map Prod.fst d := by
  intro d
  induction d with
  | nil => rfl
  | cons p d ih =>
    by_cases hp : p.1 = k
    · simp only [List.map_cons, if_pos hp, ih]
      rw [← hp]
    · simp only [List.map_cons, if_neg hp, ih]

/-- Inserting preserves the key list when the key is present, else
appends it. -/
theorem dictKeys_dictInsert (d : List (String × String)) (k v : String) :
    dictKeys (dictInsert d k v) =
      if d.any (fun p => p.1 = k) then dictKeys d else dictKeys d ++ [k] := by
  unfold dictInsert dictKeys
  by_cases h : d.any (fun p => p.1 = k)
  · rw [if_pos h, if_pos h]
    exact mapInsertKeys k v d
  · rw [if_neg h, if_neg h]
    simp

/-- The Update Set construction never duplicates a key. -/
theorem dictKeys_nodup_foldl (g : String → String) :
    ∀ (vs : List Finding) (d : List (String × String)),
      (dictKeys d).Nodup → (dictKeys (vs.foldl (updStep g) d)).Nodup := by
  intro vs
  induction vs with
  | nil => intro d h; exact h
  | cons v vs ih =>
    intro d h
    rw [List.foldl_cons]
    apply ih
    unfold updStep
    cases truthyStr v.PkgName with
    | none => exact h
    | some pkg =>
      cases truthyStr v.FixedVersion with
      | none => exact h
      | some f =>
        rw [dictKeys_dictInsert]
        by_cases ha : d.any (fun p => p.1 = pkg)
        · rw [if_pos ha]; exact h
        · rw [if_neg ha]
          have hnot : pkg ∉ dictKeys d := by
            intro hmem
            obtain ⟨q, hq, hqk⟩ := List.mem_map.mp hmem
            have : d.any (fun p => p.1 = pkg) = true :=
              List.any_eq_true.mpr ⟨q, hq, by simp [hqk]⟩
            exact ha this
          simp [List.nodup_append, h, hnot]

/-- The pinned-list Update Set has pairwise distinct keys. -/
theorem pyUpdates_keys_nodup (vulns : List Finding) :
    (dictKeys (pyUpdates vulns)).Nodup :=
  dictKeys_nodup_foldl commaLastStrip vulns [] (by simp [dictKeys])

/-- A literal pattern always strips itself off. -/
theorem matchTail_self (p : List Char) :
    ∀ r, matchTail p (p ++ r) = some r := by
  induction p with
  | nil => intro r; rfl
  | cons c p ih => intro r; simp [matchTail, ih]

/-- A successful strip decomposes the text. -/
theorem matchTail_decomp (p : List Char) :
    ∀ l r, matchTail p l = some r → l = p ++ r := by
  induction p with
  | nil => intro l r h; simpa [matchTail] using h
  | cons c p ih =>
    intro l r h
    cases l with
    | nil => simp [matchTail] at h
    | cons x l2 =>
      by_cases hx : c = x
      · subst hx
        simp only [matchTail, if_pos rfl] at h
        rw [List.cons_append, ih l2 r h]
      · simp [matchTail, hx] at h

/-- `String.toList` determines the string. -/
theorem strToListInj {a b : String} (h : a.toList = b.toList) : a = b := by
  cases a; cases b
  simp only [String.toList] at h
  simp [h]

/-- The rewritten line still matches its own package. -/
theorem reqMatches_self_ops (pkg : String) (w : List Char) :
    reqMatches pkg (pkg.toList ++ '>' :: '=' :: w) = true := by
  unfold reqMatches
  rw [matchTail_self]
  rfl

/-- No other well-formed package matches the rewritten line. -/
theorem reqMatches_other_false (q pkg : String) (w : List Char)
    (hne : q ≠ pkg)
    (hq1 : q.toList.all goodPkgChar = true)
    (hp1 : pkg.toList.all goodPkgChar = true) :
    reqMatches q (pkg.toList ++ '>' :: '=' :: w) = false := by
  unfold reqMatches
  cases hmt : matchTail q.toList (pkg.toList ++ '>' :: '=' :: w) with
  | none => rfl
  | some rest =>
    have heq : pkg.toList ++ '>' :: '=' :: w = q.toList ++ rest :=
      matchTail_decomp q.toList _ rest hmt
    rcases List.append_eq_append_iff.mp heq.symm with ⟨a2, ha2, hrest⟩ | ⟨c2, hc2, hd2⟩
    · -- pkg.toList = q.toList ++ a2, rest = a2 ++ '>'::'='::w
      cases a2 with
      | nil =>
        exact absurd (strToListInj (by simpa using ha2.symm)) hne
      | cons c0 a3 =>
        have hc0 : c0 ∈ pkg.toList := by
          rw [ha2]; exact List.mem_append_right _ (List.mem_cons_self c0 a3)
        have hg : goodPkgChar c0 = true := List.all_eq_true.mp hp1 c0 hc0
        have hop : opChar c0 = false := by
          simp [goodPkgChar, Bool.and_eq_true] at hg
          simpa using hg.1.1.2
        rw [hrest]
        simp [hop]
    · -- q.toList = pkg.toList ++ c2, '>'::'='::w = c2 ++ rest
      cases c2 with
      | nil =>
        exact absurd (strToListInj (by simpa using hc2)) hne
      | cons c0 c3 =>
        have hc0 : c0 = '>' := by
          have := hd2
          simp only [List.cons_append] at this
          exact (List.cons.injEq _ _ _ _ ▸ this :
            '>' = c0 ∧ _).1.symm
        have hc0m : c0 ∈ q.toList := by
          rw [hc2]; exact List.mem_append_right _ (List.mem_cons_self c0 c3)
        have hg : goodPkgChar c0 = true := List.all_eq_true.mp hq1 c0 hc0m
        rw [hc0] at hg
        simp [goodPkgChar, opChar] at hg

/-- `takeWhile` runs through a prefix every element of which passes. -/
theorem takeWhileAppendAll {p : Char → Bool} :
    ∀ xs ys : List Char, (∀ c ∈ xs, p c = true) →
      (xs ++ ys).takeWhile p = xs ++ ys.takeWhile p := by
  intro xs
  induction xs with
  | nil => intro ys _; rfl
  | cons x xs ih =>
    intro ys h
    have hx : p x = true := h x (List.mem_cons_self x xs)
    rw [List.cons_append, List.takeWhile_cons, if_pos hx, List.cons_append,
      ih ys (fun c hc => h c (List.mem_cons_of_mem x hc))]

/-- `dropWhile` runs through a prefix every element of which passes. -/
theorem dropWhileAppendAll {p : Char → Bool} :
    ∀ xs ys : List Char, (∀ c ∈ xs, p c = true) →
      (xs ++ ys).dropWhile p = ys.dropWhile p := by
  intro xs
  induction xs with
  | nil => intro ys _; rfl
  | cons x xs ih =>
    intro ys h
    have hx : p x = true := h x (List.mem_cons_self x xs)
    rw [List.cons_append, List.dropWhile_cons, if_pos hx,
      ih ys (fun c hc => h c (List.mem_cons_of_mem x hc))]

/-- `dropWhile` over an append, in general. -/
theorem dropWhileAppendGen {p : Char → Bool} :
    ∀ xs ys : List Char,
      (xs ++ ys).dropWhile p =
        if xs.dropWhile p = [] then ys.dropWhile p
        else xs.dropWhile p ++ ys := by
  intro xs
  induction xs with
  | nil => intro ys; simp
  | cons x xs ih =>
    intro ys
    by_cases hx : p x = true
    · rw [List.cons_append, List.dropWhile_cons, if_pos hx, ih ys,
        List.dropWhile_cons, if_pos hx]
    · have hx2 : p x = false := by
        cases hpx : p x
        · rfl
        · exact absurd hpx hx
      rw [List.cons_append, List.dropWhile_cons, if_neg (by simp [hx2])]
      simp [List.dropWhile_cons, hx2]

/-- Right strip distributes over an append. -/
theorem rstrip_append (a b : List Char) :
    rstripChars (a ++ b) =
      if rstripChars b = [] then rstripChars a else a ++ rstripChars b := by
  unfold rstripChars
  rw [List.reverse_append, dropWhileAppendGen]
  by_cases h : b.reverse.dropWhile isPyWs = []
  · have h2 : (b.reverse.dropWhile isPyWs).reverse = [] := by rw [h]; rfl
    rw [if_pos h, if_pos h2]
  · have h2 : (b.reverse.dropWhile isPyWs).reverse ≠ [] := by
      intro hh
      exact h (by simpa using congrArg List.reverse hh)
    rw [if_neg h, if_neg h2, List.reverse_append, List.reverse_reverse]

/-- A list ending in a non-blank character right-strips to itself. -/
theorem rstrip_last_nonws (xs : List Char) (x : Char) (hx : isPyWs x = false) :
    rstripChars (xs ++ [x]) = xs ++ [x] := by
  unfold rstripChars
  rw [List.reverse_append, show ([x] : List Char).reverse = [x] from rfl,
    List.singleton_append, List.dropWhile_cons, if_neg (by simp [hx]),
    List.reverse_cons, List.reverse_reverse]

/-- A trailing blank disappears under right strip. -/
theorem rstrip_ws_tail (v : List Char) :
    rstripChars (v ++ [' ']) = rstripChars v := by
  unfold rstripChars
  rw [List.reverse_append, show ([' '] : List Char).reverse = [' '] from rfl,
    List.singleton_append, List.dropWhile_cons, if_pos (by decide)]

/-- A head that is not blank blocks the left strip. -/
theorem lstrip_good_head (x : Char) (xs : List Char) (hx : isPyWs x = false) :
    lstripChars (x :: xs) = x :: xs := by
  unfold lstripChars
  rw [List.dropWhile_cons, if_neg (by simp [hx])]

/-- Good package characters are not the comment character. -/
theorem goodPkgChar_ne_hash {c : Char} (h : goodPkgChar c = true) :
    c ≠ '#' := by
  simp only [goodPkgChar, Bool.and_eq_true] at h
  exact of_decide_eq_true h.1.2

/-- Good version characters are not the comment character. -/
theorem goodVerChar_ne_hash {c : Char} (h : goodVerChar c = true) :
    c ≠ '#' := by
  simp only [goodVerChar, Bool.and_eq_true] at h
  exact of_decide_eq_true h.1

/-- Every character of the rewritten line body (package, operators,
version) passes the not-comment test. -/
theorem rewritten_no_hash (pkgL verL : List Char)
    (hpkg : pkgL.all goodPkgChar = true) (hver : verL.all goodVerChar = true) :
    ∀ c ∈ pkgL ++ '>' :: '=' :: verL, (fun c => decide (c ≠ '#')) c = true := by
  intro c hc
  rcases List.mem_append.mp hc with hm | hm
  · exact decide_eq_true (goodPkgChar_ne_hash (List.all_eq_true.mp hpkg c hm))
  · rcases List.mem_cons.mp hm with rfl | hm2
    · decide
    · rcases List.mem_cons.mp hm2 with rfl | hm3
      · decide
      · exact decide_eq_true (goodVerChar_ne_hash (List.all_eq_true.mp hver c hm3))

/-- The strip step of the rewritten line: independent of whether the
trailing blank of a comment is present. -/
theorem strip_rewritten (ph : Char) (pt verL tail : List Char)
    (hph : isPyWs ph = false)
    (htail : rstripChars tail = rstripChars verL) :
    stripChars ((ph :: pt) ++ '>' :: '=' :: tail) =
      (ph :: pt) ++ '>' :: '=' :: rstripChars verL := by
  unfold stripChars
  rw [List.cons_append, lstrip_good_head ph _ hph, ← List.cons_append]
  have hshape : (ph :: pt) ++ '>' :: '=' :: tail =
      ((ph :: pt) ++ ['>', '=']) ++ tail := by
    simp
  rw [hshape, rstrip_append]
  have hfix : ((ph :: pt) ++ ['>'] ) ++ ['='] = (ph :: pt) ++ ['>', '='] := by
    simp
  have hops : rstripChars ((ph :: pt) ++ ['>', '=']) =
      (ph :: pt) ++ ['>', '='] := by
    rw [← hfix, rstrip_last_nonws _ '=' (by decide), hfix]
  by_cases hz : rstripChars tail = []
  · have hv : rstripChars verL = [] := htail.symm.trans hz
    rw [if_pos hz, hops, hv]
  · rw [if_neg hz, htail]
    simp

/-- `clean` of the rewritten line: the package, the `>=` operator and the
right-stripped version. -/
theorem cleanL_rewritten (pkgL verL c : List Char)
    (hne : pkgL ≠ []) (hpkg : pkgL.all goodPkgChar = true)
    (hver : verL.all goodVerChar = true)
    (hc : c = [] ∨ ∃ r, c = ' ' :: '#' :: r) :
    cleanL (pkgL ++ '>' :: '=' :: (verL ++ c)) =
      pkgL ++ '>' :: '=' :: rstripChars verL := by
  cases pkgL with
  | nil => exact absurd rfl hne
  | cons ph pt =>
    have hph : isPyWs ph = false := by
      have := List.all_eq_true.mp hpkg ph (List.mem_cons_self ph pt)
      simp only [goodPkgChar, Bool.and_eq_true] at this
      simpa using this.1.1.1
    unfold cleanL
    have hassoc : (ph :: pt) ++ '>' :: '=' :: (verL ++ c) =
        ((ph :: pt) ++ '>' :: '=' :: verL) ++ c := by
      simp
    rw [hassoc, takeWhileAppendAll _ _ (rewritten_no_hash (ph :: pt) verL hpkg hver)]
    rcases hc with rfl | ⟨r, rfl⟩
    · rw [show (List.takeWhile (fun c => decide (c ≠ '#')) ([] : List Char)) =
        ([] : List Char) from rfl, List.append_nil]
      exact strip_rewritten ph pt verL verL hph rfl
    · rw [show List.takeWhile (fun c => decide (c ≠ '#')) (' ' :: '#' :: r) =
        [' '] from rfl]
      have hshape2 : ((ph :: pt) ++ '>' :: '=' :: verL) ++ [' '] =
          (ph :: pt) ++ '>' :: '=' :: (verL ++ [' ']) := by
        simp
      rw [hshape2]
      exact strip_rewritten ph pt verL (verL ++ [' ']) hph (rstrip_ws_tail verL)

/-- `comment` of the rewritten line is the comment that was re-attached. -/
theorem commentL_rewritten (pkgL verL c : List Char)
    (hpkg : pkgL.all goodPkgChar = true) (hver : verL.all goodVerChar = true)
    (hc : c = [] ∨ ∃ r, c = ' ' :: '#' :: r) :
    commentL (pkgL ++ '>' :: '=' :: (verL ++ c)) = c := by
  unfold commentL
  have hassoc : pkgL ++ '>' :: '=' :: (verL ++ c) =
      (pkgL ++ '>' :: '=' :: verL) ++ c := by
    simp
  rw [hassoc, dropWhileAppendAll _ _ (rewritten_no_hash pkgL verL hpkg hver)]
  rcases hc with rfl | ⟨r, rfl⟩
  · rfl
  · rfl

/-- Every comment is empty or of the shape `" #..."`. -/
theorem commentL_shape (l : List Char) :
    commentL l = [] ∨ ∃ r, commentL l = ' ' :: '#' :: r := by
  unfold commentL
  cases l.dropWhile (fun c => c ≠ '#') with
  | nil => exact Or.inl rfl
  | cons x rest => exact Or.inr ⟨rest, rfl⟩

/-- The first match of the Update Set against the rewritten line is the
package that produced it: distinct well-formed keys cannot capture each
other's rewritten lines. -/
theorem find_stable (pkg ver : String) (w clean0 : List Char) :
    ∀ U : List (String × String), (dictKeys U).Nodup →
      goodUpdates U = true →
      U.find? (fun p => reqMatches p.1 clean0) = some (pkg, ver) →
      U.find? (fun p => reqMatches p.1 (pkg.toList ++ '>' :: '=' :: w)) =
        some (pkg, ver) := by
  intro U
  induction U with
  | nil => intro _ _ h; simp at h
  | cons q U ih =>
    intro hnd hgood hfind
    by_cases hq : reqMatches q.1 clean0 = true
    · simp only [List.find?, hq] at hfind
      have hqv : q = (pkg, ver) := by
        injection hfind
      subst hqv
      simp only [List.find?, reqMatches_self_ops pkg w]
    · have hqf : reqMatches q.1 clean0 = false := by
        cases h2 : reqMatches q.1 clean0
        · rfl
        · exact absurd h2 hq
      simp only [List.find?, hqf] at hfind
      have hmem : (pkg, ver) ∈ U := List.mem_of_find?_eq_some hfind
      have hkey : pkg ∈ dictKeys U :=
        List.mem_map.mpr ⟨(pkg, ver), hmem, rfl⟩
      have hnd2 : q.1 ∉ dictKeys U ∧ (dictKeys U).Nodup := by
        have hk : dictKeys (q :: U) = q.1 :: dictKeys U := rfl
        rw [hk] at hnd
        exact ⟨(List.nodup_cons.mp hnd).1, (List.nodup_cons.mp hnd).2⟩
      have hne : q.1 ≠ pkg := fun hh => hnd2.1 (hh ▸ hkey)
      have hgq : q.1.toList.all goodPkgChar = true := by
        have hx := List.all_eq_true.mp hgood q (List.mem_cons_self q U)
        simp only [Bool.and_eq_true] at hx
        exact hx.1.2
      have hgp : pkg.toList.all goodPkgChar = true := by
        have hx := List.all_eq_true.mp hgood (pkg, ver)
          (List.mem_cons_of_mem q hmem)
        simp only [Bool.and_eq_true] at hx
        exact hx.1.2
      have hgood2 : goodUpdates U = true := by
        have hx := List.all_eq_true.mp hgood
        exact List.all_eq_true.mpr fun p hp =>
          hx p (List.mem_cons_of_mem q hp)
      simp only [List.find?, reqMatches_other_false q.1 pkg w hne hgq hgp]
      exact ih hnd2.2 hgood2 hfind

/-- Applying the line rewrite a second time reproduces both the line and
the reported package. -/
theorem applyLine_idem (U : List (String × String))
    (hnd : (dictKeys U).Nodup) (hgood : goodUpdates U = true)
    (l : List Char) :
    applyLineL U (applyLineL U l).1 = applyLineL U l := by
  by_cases hc : cleanL l = []
  · simp [applyLineL, hc]
  · cases hfind : U.find? (fun p => reqMatches p.1 (cleanL l)) with
    | none => simp [applyLineL, hc, hfind]
    | some pv =>
      obtain ⟨pkg, ver⟩ := pv
      have h1 : applyLineL U l =
          (pkg.toList ++ '>' :: '=' :: (ver.toList ++ commentL l),
            some pkg) := by
        simp [applyLineL, hc, hfind]
      rw [h1]
      have hmem : (pkg, ver) ∈ U := List.mem_of_find?_eq_some hfind
      have hall := List.all_eq_true.mp hgood (pkg, ver) hmem
      simp only [Bool.and_eq_true] at hall
      have hne : pkg.toList ≠ [] := by
        have := hall.1.1
        simpa using this
      have hpkg : pkg.toList.all goodPkgChar = true := hall.1.2
      have hver : ver.toList.all goodVerChar = true := hall.2
      have hclean : cleanL (pkg.toList ++ '>' :: '=' ::
          (ver.toList ++ commentL l)) =
          pkg.toList ++ '>' :: '=' :: rstripChars ver.toList :=
        cleanL_rewritten pkg.toList ver.toList (commentL l) hne hpkg hver
          (commentL_shape l)
      have hcomm : commentL (pkg.toList ++ '>' :: '=' ::
          (ver.toList ++ commentL l)) = commentL l :=
        commentL_rewritten pkg.toList ver.toList (commentL l) hpkg hver
          (commentL_shape l)
      have hcleanne : cleanL (pkg.toList ++ '>' :: '=' ::
          (ver.toList ++ commentL l)) ≠ [] := by
        rw [hclean]
        cases hp : pkg.toList with
        | nil => exact absurd hp hne
        | cons a b => simp
      have hfind2 : U.find? (fun p => reqMatches p.1
          (cleanL (pkg.toList ++ '>' :: '=' :: (ver.toList ++ commentL l)))) =
          some (pkg, ver) := by
        rw [hclean]
        exact find_stable pkg ver (rstripChars ver.toList) (cleanL l) U
          hnd hgood hfind
      simp only [String.toList] at hcleanne hfind2 hcomm
      simp [applyLineL, hcleanne, hfind2, hcomm]

/-- A second pass over the processed lines reproduces the whole loop
state. -/
theorem pyLoop_second (U : List (String × String))
    (hnd : (dictKeys U).Nodup) (hgood : goodUpdates U = true) :
    ∀ ls : List (List Char),
      pyLoop U (ls.map (fun l => (applyLineL U l).1)) = pyLoop U ls := by
  intro ls
  induction ls with
  | nil => rfl
  | cons l ls ih =>
    simp only [List.map_cons, pyLoop, ih, applyLine_idem U hnd hgood l]

/-- Splitting after a newline head. -/
theorem splitLinesL_cons_nl (rest : List Char) :
    splitLinesL ('\n' :: rest) = [] :: splitLinesL rest := by
  rw [splitLinesL.eq_3 '\n' rest
    (by intro r2 h _; exact absurd h (by decide)), if_pos (by decide)]

/-- Splitting at a non-break head prepends the character to the first
line of the tail split. -/
theorem splitLinesL_cons_nonLB (c : Char) (rest : List Char)
    (hc : isLB c = false) :
    splitLinesL (c :: rest) =
      (match splitLinesL rest with
       | [] => [[c]]
       | l :: ls => (c :: l) :: ls) := by
  have hcr : c ≠ '\r' := by
    intro h
    subst h
    exact absurd hc (by decide)
  rw [splitLinesL.eq_3 c rest (fun r2 h _ => absurd h hcr),
    if_neg (by simp [hc])]

/-- No split line contains a line-break character. -/
theorem splitLinesL_noLB :
    ∀ (n : Nat) (cs : List Char), cs.length ≤ n →
      ∀ l ∈ splitLinesL cs, ∀ c ∈ l, isLB c = false := by
  intro n
  induction n with
  | zero =>
    intro cs h l hl
    have hnil : cs = [] := List.length_eq_zero.mp (Nat.le_zero.mp h)
    subst hnil
    simp [splitLinesL] at hl
  | succ n ih =>
    intro cs h l hl c hc
    cases cs with
    | nil => simp [splitLinesL] at hl
    | cons x rest =>
      by_cases hxr : x = '\r'
      · subst hxr
        cases rest with
        | nil =>
          rw [splitLinesL.eq_3 '\r' [] (fun r2 h2 hcon => by simp at hcon),
            if_pos (by decide)] at hl
          simp [splitLinesL] at hl
          subst hl
          simp at hc
        | cons y rest2 =>
          by_cases hy : y = '\n'
          · subst hy
            rw [splitLinesL.eq_2] at hl
            rcases List.mem_cons.mp hl with rfl | h2
            · simp at hc
            · exact ih rest2 (by simp at h; omega) l h2 c hc
          · rw [splitLinesL.eq_3 '\r' (y :: rest2)
              (fun r2 h2 hcon => hy (List.head_eq_of_cons_eq hcon)),
              if_pos (by decide)] at hl
            rcases List.mem_cons.mp hl with rfl | h2
            · simp at hc
            · exact ih (y :: rest2) (by simp at h ⊢; omega) l h2 c hc
      · by_cases hlb : isLB x = true
        · rw [splitLinesL.eq_3 x rest (fun r2 hh _ => absurd hh hxr),
            if_pos hlb] at hl
          rcases List.mem_cons.mp hl with rfl | h2
          · simp at hc
          · exact ih rest (by simp at h; omega) l h2 c hc
        · have hlbf : isLB x = false := by
            cases hxx : isLB x
            · rfl
            · exact absurd hxx hlb
          rw [splitLinesL_cons_nonLB x rest hlbf] at hl
          rcases hs : splitLinesL rest with _ | ⟨m, ms⟩
          · rw [hs] at hl
            simp at hl
            subst hl
            rcases List.mem_cons.mp hc with rfl | h3
            · exact hlbf
            · simp at h3
          · rw [hs] at hl
            rcases List.mem_cons.mp hl with rfl | h2
            · rcases List.mem_cons.mp hc with rfl | h3
              · exact hlbf
              · exact ih rest (by simp at h; omega) m
                  (hs ▸ List.mem_cons_self m ms) c h3
            · exact ih rest (by simp at h; omega) l
                (hs ▸ List.mem_cons_of_mem m h2) c hc

/-- Splitting a break-free line off the front. -/
theorem splitLinesL_line_nl (l : List Char) :
    ∀ rest : List Char, (∀ c ∈ l, isLB c = false) →
      splitLinesL (l ++ '\n' :: rest) = l :: splitLinesL rest := by
  induction l with
  | nil => intro rest _; rw [List.nil_append, splitLinesL_cons_nl]
  | cons x l2 ih =>
    intro rest hl
    have hx := hl x (List.mem_cons_self x l2)
    rw [List.cons_append, splitLinesL_cons_nonLB x _ hx,
      ih rest (fun c hc => hl c (List.mem_cons_of_mem x hc))]

/-- Splitting the joined image recovers the lines. -/
theorem splitLines_joinNL :
    ∀ out : List (List Char), out ≠ [] →
      (∀ l ∈ out, ∀ c ∈ l, isLB c = false) →
      splitLinesL (joinNL out) = out := by
  intro out
  induction out with
  | nil => intro h; exact absurd rfl h
  | cons l out ih =>
    intro _ hlb
    cases out with
    | nil =>
      show splitLinesL (interNL [l] ++ ['\n']) = [l]
      rw [show interNL [l] = l from rfl,
        splitLinesL_line_nl l [] (hlb l (List.mem_cons_self l []))]
      rfl
    | cons l2 out2 =>
      show splitLinesL (interNL (l :: l2 :: out2) ++ ['\n']) = l :: l2 :: out2
      rw [show interNL (l :: l2 :: out2) = l ++ '\n' :: interNL (l2 :: out2)
        from rfl]
      rw [List.append_assoc, List.cons_append,
        splitLinesL_line_nl l (interNL (l2 :: out2) ++ ['\n'])
          (hlb l (List.mem_cons_self l _))]
      have hj : splitLinesL (interNL (l2 :: out2) ++ ['\n']) = l2 :: out2 :=
        ih (List.cons_ne_nil l2 out2)
          (fun m hm c hc => hlb m (List.mem_cons_of_mem l hm) c hc)
      rw [hj]

/-- Membership survives `dropWhile`. -/
theorem memDropWhile {p : Char → Bool} :
    ∀ (l : List Char) (x : Char), x ∈ l.dropWhile p → x ∈ l := by
  intro l
  induction l with
  | nil => intro x h; simp at h
  | cons a l ih =>
    intro x h
    by_cases hp : p a = true
    · rw [List.dropWhile_cons, if_pos hp] at h
      exact List.mem_cons_of_mem a (ih x h)
    · rw [List.dropWhile_cons, if_neg hp] at h
      exact h

/-- Characters of a comment are the marker pair or characters of the
line. -/
theorem commentL_mem (l : List Char) (c : Char) (h : c ∈ commentL l) :
    c = ' ' ∨ c = '#' ∨ c ∈ l := by
  unfold commentL at h
  generalize hd : List.dropWhile (fun c => c ≠ '#') l = d at h
  cases d with
  | nil => simp at h
  | cons x rest =>
    simp only [List.mem_cons] at h
    rcases h with rfl | rfl | h3
    · exact Or.inl rfl
    · exact Or.inr (Or.inl rfl)
    · exact Or.inr (Or.inr
        (memDropWhile l c (hd ▸ List.mem_cons_of_mem x h3)))

/-- The line rewrite never introduces a line break. -/
theorem applyLine_noLB (U : List (String × String))
    (hgood : goodUpdates U = true) (l : List Char)
    (hl : ∀ c ∈ l, isLB c = false) :
    ∀ c ∈ (applyLineL U l).1, isLB c = false := by
  by_cases hc : cleanL l = []
  · intro c hcm
    have heq : (applyLineL U l).1 = l := by simp [applyLineL, hc]
    rw [heq] at hcm
    exact hl c hcm
  · cases hfind : U.find? (fun p => reqMatches p.1 (cleanL l)) with
    | none =>
      intro c hcm
      have heq : (applyLineL U l).1 = l := by simp [applyLineL, hc, hfind]
      rw [heq] at hcm
      exact hl c hcm
    | some pv =>
      obtain ⟨pkg, ver⟩ := pv
      have heq : (applyLineL U l).1 =
          pkg.toList ++ '>' :: '=' :: (ver.toList ++ commentL l) := by
        simp [applyLineL, hc, hfind]
      have hmem : (pkg, ver) ∈ U := List.mem_of_find?_eq_some hfind
      have hall := List.all_eq_true.mp hgood (pkg, ver) hmem
      simp only [Bool.and_eq_true] at hall
      intro c hcm
      rw [heq] at hcm
      rcases List.mem_append.mp hcm with hm | hm
      · have hg := List.all_eq_true.mp hall.1.2 c hm
        simp only [goodPkgChar, Bool.and_eq_true] at hg
        simpa using hg.2
      · rcases List.mem_cons.mp hm with rfl | hm2
        · decide
        · rcases List.mem_cons.mp hm2 with rfl | hm3
          · decide
          · rcases List.mem_append.mp hm3 with hm4 | hm4
            · have hg := List.all_eq_true.mp hall.2 c hm4
              simp only [goodVerChar, Bool.and_eq_true] at hg
              simpa using hg.2
            · rcases commentL_mem l c hm4 with rfl | rfl | hm5
              · decide
              · decide
              · exact hl c hm5

/-- C7 amended: the pinned-list apply step is idempotent on file content
for every well-formed Update Set (package names non-empty and free of
whitespace, comment, line-break and version-operator characters; fixed
versions free of comment and line-break characters). -/
theorem claim7_amended (vulns : List Finding) (fs : FS)
    (hgood : goodUpdates (pyUpdates vulns) = true) :
    FS.read ((PythonUpdater.update (PythonUpdater.update fs vulns).2
        vulns).2) "requirements.txt" =
      FS.read ((PythonUpdater.update fs vulns).2) "requirements.txt" := by
  have hnd := pyUpdates_keys_nodup vulns
  cases h0 : FS.read fs "requirements.txt" with
  | none =>
    have h1 : PythonUpdater.update fs vulns = ([], fs) := by
      simp [PythonUpdater.update, h0]
    simp [h1]
  | some content =>
    by_cases hUe : (pyUpdates vulns).isEmpty = true
    · have h1 : PythonUpdater.update fs vulns = ([], fs) := by
        simp [PythonUpdater.update, h0, hUe]
      simp [h1]
    · have hUe2 : (pyUpdates vulns).isEmpty = false := by
        cases hx : (pyUpdates vulns).isEmpty
        · rfl
        · exact absurd hx hUe
      cases hmod : (pyLoop (pyUpdates vulns)
          (splitLinesL content.data)).2.2 with
      | false =>
        have h1 : PythonUpdater.update fs vulns = ([], fs) := by
          simp [PythonUpdater.update, h0, hUe2, hmod]
        simp [h1]
      | true =>
        have h1 : (PythonUpdater.update fs vulns).2 =
            FS.write fs "requirements.txt" (String.mk (joinNL
              (pyLoop (pyUpdates vulns) (splitLinesL content.data)).1)) := by
          simp [PythonUpdater.update, h0, hUe2, hmod]
        have hlinesLB : ∀ l ∈ splitLinesL content.data, ∀ c ∈ l,
            isLB c = false :=
          splitLinesL_noLB content.data.length content.data (Nat.le_refl _)
        have houtLB : ∀ l ∈ (pyLoop (pyUpdates vulns)
            (splitLinesL content.data)).1, ∀ c ∈ l, isLB c = false := by
          rw [pyLoop_fst]
          intro l hl
          obtain ⟨l0, hl0, rfl⟩ := List.mem_map.mp hl
          exact applyLine_noLB (pyUpdates vulns) hgood l0 (hlinesLB l0 hl0)
        have hlsne : splitLinesL content.data ≠ [] := by
          intro hz
          rw [hz] at hmod
          simp [pyLoop] at hmod
        have houtne : (pyLoop (pyUpdates vulns)
            (splitLinesL content.data)).1 ≠ [] := by
          rw [pyLoop_fst]
          intro hz
          exact hlsne (List.map_eq_nil_iff.mp hz)
        have hsplit : splitLinesL (String.mk (joinNL (pyLoop (pyUpdates vulns)
            (splitLinesL content.data)).1)).data =
            (pyLoop (pyUpdates vulns) (splitLinesL content.data)).1 :=
          splitLines_joinNL _ houtne houtLB
        have hsecond : pyLoop (pyUpdates vulns)
            ((pyLoop (pyUpdates vulns) (splitLinesL content.data)).1) =
            pyLoop (pyUpdates vulns) (splitLinesL content.data) := by
          rw [pyLoop_fst]
          exact pyLoop_second (pyUpdates vulns) hnd hgood _
        have hr1 : FS.read ((PythonUpdater.update fs vulns).2)
            "requirements.txt" = some (String.mk (joinNL
              (pyLoop (pyUpdates vulns) (splitLinesL content.data)).1)) := by
          rw [h1]
          exact FS.read_write_self fs "requirements.txt" _
        rw [hr1, h1]
        simp only [PythonUpdater.update, String.toList, FS.read_write_self,
          hUe2, Bool.false_eq_true, if_false, hsplit, hsecond, hmod, if_true]

/-- C7 witness: two applications on a concrete requirements file with a
well-formed Finding give identical content. -/
theorem claim7_witness :
    FS.read ((PythonUpdater.update (PythonUpdater.update
        [("requirements.txt", "requests==2.0.0 # pin\nflask\n")]
        [highFinding]).2 [highFinding]).2) "requirements.txt" =
      FS.read ((PythonUpdater.update
        [("requirements.txt", "requests==2.0.0 # pin\nflask\n")]
        [highFinding]).2) "requirements.txt" :=
  claim7_amended [highFinding]
    [("requirements.txt", "requests==2.0.0 # pin\nflask\n")] (by decide)

end DSA
